import Mathlib

/-!
# Offline-first note upload cycle of `ProjectDetails.js`

A shallow embedding of the upload cycle `handleUploadNotesPress`
(`src/Screens/DataCollection/ProjectDetails.js`) together with the helpers it
calls (`uploadToCloudinary`), the loader `loadProjectDetails`, the expiry
check `checkAndUploadNotes`, the helpers `checkIfExpired` and
`handleNotePress`, `handleDeleteImage` of `src/VialPicture.js` and the counters
of `src/Screens/Home/HomeScreen.js`.

JavaScript objects are modelled by structures, arrays by lists.  The external
collaborators (Cloudinary, Firestore, AsyncStorage, the authentication module)
are modelled by an environment `Env` that fixes, for one run, the outcome of
every call the code issues, and by a `World` that holds the React/context
state, the device store and the remote documents.  Every call the code issues
is appended to `World.trace`.
-/

namespace Max

/-! ## Data model -/

/-- A local image object as produced by the image picker: `image.uri`,
`image.type`, `image.name` (the last two may be missing). -/
structure ImageRef where
  uri : String
  type : Option String := none
  name : Option String := none
  size : Option Nat := none
  deriving DecidableEq

/-- An element of `note.images` / `note.imagess`: an image object before the
upload, the string returned by `uploadToCloudinary` after it. -/
inductive ImageEntry where
  | ref (r : ImageRef)
  | url (u : String)
  deriving DecidableEq

/-- A note object.  `Serial` is a string (`handleNotePress` calls
`note.Serial.replace`), `isUploaded` may be missing (`none`), `fields` stands
for the survey fields that the code of this file never reads. -/
structure Note where
  Serial : String
  images : List ImageEntry := []
  imagess : List ImageEntry := []
  isUploaded : Option Bool := none
  fields : List (String × String) := []
  deriving DecidableEq

/-- JavaScript truthiness of `note.isUploaded`. -/
def Note.uploaded (n : Note) : Bool := n.isUploaded == some true

/-- The Project document / the `project` React state. -/
structure Project where
  projectName : String
  country : String := ""
  toDate : Option Int := none
  isUploaded : Bool := false
  deriving DecidableEq

/-- The `file` and `upload_preset` parts appended to the `FormData`. -/
structure FormData where
  uri : Option String
  type : String
  name : String
  upload_preset : String
  deriving DecidableEq

/-- The HTTP response seen by `uploadToCloudinary`.  `json` is the outcome of
`response.json()`: `none` when the body does not parse, otherwise the value of
the `secure_url` field (`none` when the field is missing). -/
structure Response where
  ok : Bool
  status : Nat
  statusText : String := ""
  text : String := ""
  json : Option (Option String) := none
  deriving DecidableEq

/-- The outcome of one `fetch` call: it rejects with an error message or
resolves with a response. -/
inductive FetchResult where
  | rejected (message : String)
  | resolved (r : Response)
  deriving DecidableEq

/-- The value stored under a key of AsyncStorage: a string that
`JSON.parse(...).map` accepts (a serialized array of notes) or one on which it
throws. -/
inductive Stored where
  | corrupt
  | notes (l : List Note)
  deriving DecidableEq

/-- The calls issued by the code, in the order they are issued. -/
inductive Effect where
  | post (fd : FormData)
  | batchCommit (writes : List (String × Note))
  | aggregateGet (projectName : String)
  | aggregateUpdate (projectName : String) (notes : List Note)
  | aggregateSet (projectName : String) (notes : List Note)
  | projectUpdate
  | updateProjectUploadStatus
  | setUploadedNotes (notes : List Note)
  | storageSet (notes : List Note)
  deriving DecidableEq

/-- The state one `ProjectDetails` screen works on: the React state `project`,
the context state `uploadedNotes`, the context's upload status of the project,
the AsyncStorage item under `projectId`, the remote Project document, the
documents of its `Uploaded Note` sub-collection (by document id), the
`NotesUploaded` collection (by project name, each with its `notes` field, which
may be missing), and the calls issued so far. -/
structure World where
  project : Option Project := none
  uploadedNotes : List Note := []
  contextUploadStatus : Bool := false
  storage : Option Stored := none
  remoteProject : Option Project := none
  uploadedNoteDocs : List (String × Note) := []
  notesUploaded : List (String × Option (List Note)) := []
  trace : List Effect := []

/-- The outcomes, during one run, of the calls to the collaborators.
`fetch i h j` is the outcome of the POST for the image at position `j` of the
vial list (`h = false`) or habitat list (`h = true`) of the note at position
`i` of `uploadedNotes`; a flag is `false` when the call it names rejects. -/
structure Env where
  userEmail : Option String := some "user@example.org"
  fetch : Nat → Bool → Nat → FormData → FetchResult
  commitOk : Bool := true
  aggregateGetOk : Bool := true
  aggregateWriteOk : Bool := true
  projectUpdateOk : Bool := true
  storageSetOk : Bool := true
  projectGetOk : Bool := true
  storageGetOk : Bool := true
  now : Int := 0

/-! ## Document collections -/

/-- The write `doc(id).set(value)` on a collection held as an association list. -/
def setDoc {α : Type} (id : String) (value : α) : List (String × α) → List (String × α)
  | [] => [(id, value)]
  | (k, v) :: rest => if k = id then (id, value) :: rest else (k, v) :: setDoc id value rest

/-- The read `doc(id).get()`: `none` when the document does not exist. -/
def getDoc {α : Type} (id : String) : List (String × α) → Option α
  | [] => none
  | (k, v) :: rest => if k = id then some v else getDoc id rest

/-- Committing a write batch applies its `set` writes in order. -/
def applyBatch (writes : List (String × Note)) (docs : List (String × Note)) :
    List (String × Note) :=
  writes.foldl (fun acc kv => setDoc kv.1 kv.2 acc) docs

/-! ## `uploadToCloudinary` -/

/-- The JavaScript `value || fallback` on an optional string (`undefined` and
the empty string are falsy). -/
def orDefault (value : Option String) (fallback : String) : String :=
  match value with
  | some s => if s = "" then fallback else s
  | none => fallback

/-- The form data built for an image: for an entry that is already a string
the properties `uri`, `type` and `name` are `undefined`. -/
def formDataOf (image : ImageEntry) : FormData :=
  match image with
  | .ref r =>
    { uri := some r.uri, type := orDefault r.type "image/jpeg",
      name := orDefault r.name "upload.jpg", upload_preset := "profile2" }
  | .url _ =>
    { uri := none, type := orDefault none "image/jpeg",
      name := orDefault none "upload.jpg", upload_preset := "profile2" }

/-- The function `uploadToCloudinary`, given the outcome of its single `fetch`:
the returned URL, or the message of the error it throws.  When `fetch` rejects
the error is rethrown as it is; when `response.json()` rejects the parser's
error is rethrown, its message is represented by "JSON Parse error". -/
def uploadToCloudinary (fetch : FormData → FetchResult) (image : ImageEntry) :
    Except String String :=
  match fetch (formDataOf image) with
  | .rejected message => .error message
  | .resolved response =>
    if !response.ok then .error ("Upload failed: " ++ response.statusText)
    else
      match response.json with
      | none => .error "JSON Parse error"
      | some none => .error "Image upload failed, secure_url missing."
      | some (some url) =>
        if url = "" then .error "Image upload failed, secure_url missing."
        else .ok url

/-! ## The image loop of `handleUploadNotesPress` -/

/-- The calls `images.map(image => uploadToCloudinary(image))`: one call per
image, in order; `j` is the position of the head of the list within the image
list of the note, and the call for the image at position `j` sees `fetch j`. -/
def uploadEach (fetch : Nat → FormData → FetchResult) (j : Nat) :
    List ImageEntry → List (Except String String)
  | [] => []
  | image :: rest => uploadToCloudinary (fetch j) image :: uploadEach fetch (j + 1) rest

/-- The combinator `Promise.all`: the list of the values when every promise
fulfils, otherwise a rejection. -/
def promiseAll : List (Except String String) → Except String (List String)
  | [] => .ok []
  | .error e :: _ => .error e
  | .ok v :: rest =>
    match promiseAll rest with
    | .ok vs => .ok (v :: vs)
    | .error e => .error e

/-- The POSTs issued for one image list: `map` starts one per image. -/
def postsOf (images : List ImageEntry) : List Effect :=
  images.map (fun image => Effect.post (formDataOf image))

/-- The body of the `try` block of the loop for the note at position `i`: the
note as assigned in place (`images`, `imagess`, `isUploaded = true`) when both
`Promise.all` fulfil, `none` when one rejects (the `catch` only logs); with the
POSTs issued.  The habitat uploads start only after the vial uploads fulfilled. -/
def uploadNoteImages (fetch : Nat → Bool → Nat → FormData → FetchResult) (i : Nat)
    (note : Note) : Option Note × List Effect :=
  match promiseAll (uploadEach (fetch i false) 0 note.images) with
  | .error _ => (none, postsOf note.images)
  | .ok uploadedVialImages =>
    match promiseAll (uploadEach (fetch i true) 0 note.imagess) with
    | .error _ => (none, postsOf note.images ++ postsOf note.imagess)
    | .ok uploadedHabitatImages =>
      (some { note with images := uploadedVialImages.map ImageEntry.url,
                        imagess := uploadedHabitatImages.map ImageEntry.url,
                        isUploaded := some true },
       postsOf note.images ++ postsOf note.imagess)

/-- The result of the loop. `objects` are the note objects of `uploadedNotes`
in order, after the assignments of the loop, each with the mark whether the
object is an element of `unuploadedNotes`; `batch` holds the `batch.set`
writes; `posts` the POSTs issued. -/
structure LoopResult where
  objects : List (Bool × Note)
  batch : List (String × Note)
  posts : List Effect

/-- The loop `for (let note of unuploadedNotes)`.  `unuploadedNotes` is
`uploadedNotes.filter(note => !note.isUploaded)`, which holds the same objects
as `uploadedNotes`, so the loop visits, in order, the objects of
`uploadedNotes` that are not uploaded and its assignments are seen through
both arrays. `i` is the position of the head of the list. -/
def uploadLoop (fetch : Nat → Bool → Nat → FormData → FetchResult) (i : Nat) :
    List Note → LoopResult
  | [] => { objects := [], batch := [], posts := [] }
  | note :: rest =>
    let r := uploadLoop fetch (i + 1) rest
    if note.uploaded then
      { r with objects := (false, note) :: r.objects }
    else
      match uploadNoteImages fetch i note with
      | (some note', posts) =>
        { objects := (true, note') :: r.objects,
          batch := (note'.Serial, note') :: r.batch,
          posts := posts ++ r.posts }
      | (none, posts) =>
        { objects := (true, note) :: r.objects,
          batch := r.batch,
          posts := posts ++ r.posts }

/-- The array `uploadedNotes` after the loop. -/
def LoopResult.uploadedNotes (r : LoopResult) : List Note := r.objects.map Prod.snd

/-- The array `unuploadedNotes` after the loop. -/
def LoopResult.unuploadedNotes (r : LoopResult) : List Note :=
  (r.objects.filter Prod.fst).map Prod.snd

/-- The test `uploadedNotes.every(note => note.isUploaded ||
unuploadedNotes.includes(note))`; `includes` compares object identity, which
is the mark. -/
def LoopResult.allNotesUploaded (r : LoopResult) : Bool :=
  r.objects.all (fun o => o.2.uploaded || o.1)

/-- The list `finalNotes`: `uploadedNotes.map(note => unuploadedNotes.some(unNote
=> unNote.Serial === note.Serial) ? {...note, isUploaded: true} : note)`. -/
def LoopResult.finalNotes (r : LoopResult) : List Note :=
  r.uploadedNotes.map (fun note =>
    if r.unuploadedNotes.any (fun unNote => unNote.Serial == note.Serial)
    then { note with isUploaded := some true } else note)

/-- The array `uploadedNotes.filter(note => !note.isUploaded)`. -/
def unuploadedNotes (notes : List Note) : List Note :=
  notes.filter (fun note => !note.uploaded)

/-! ## `handleUploadNotesPress` -/

/-- The write to the `NotesUploaded` document of the project name: an `update`
with the existing `notes` (or `[]`) followed by `unuploadedNotes` when the
document exists, a `set` with `unuploadedNotes` when it does not. -/
def aggregateWrite (projectName : String) (existing : Option (Option (List Note)))
    (unuploaded : List Note) : Effect × List Note :=
  match existing with
  | some existingNotes =>
    let updatedNotesList := existingNotes.getD [] ++ unuploaded
    (Effect.aggregateUpdate projectName updatedNotesList, updatedNotesList)
  | none => (Effect.aggregateSet projectName unuploaded, unuploaded)

/-- The statements after `await batch.commit()` fulfilled (lines 232-269): the
aggregate read and write, the project status, the final list.  Each rejected
call (and the read of `project.projectName` when `project` is `null`) leaves
for the `catch` block, which only logs. -/
def afterCommit (env : Env) (r : LoopResult) (w : World) : World :=
  match w.project with
  | none => w
  | some project =>
    let w1 := { w with trace := w.trace ++ [Effect.aggregateGet project.projectName] }
    if !env.aggregateGetOk then w1
    else
      let write := aggregateWrite project.projectName
        (getDoc project.projectName w1.notesUploaded) r.unuploadedNotes
      let w2 := { w1 with trace := w1.trace ++ [write.1] }
      if !env.aggregateWriteOk then w2
      else
        let w3 := { w2 with
          notesUploaded := setDoc project.projectName (some write.2) w2.notesUploaded }
        let w4 :=
          if r.allNotesUploaded then
            { w3 with trace := w3.trace ++ [Effect.projectUpdate] }
          else w3
        if r.allNotesUploaded && !env.projectUpdateOk then w4
        else
          let w5 :=
            if r.allNotesUploaded then
              { w4 with
                remoteProject := w4.remoteProject.map (fun p => { p with isUploaded := true })
                contextUploadStatus := true
                trace := w4.trace ++ [Effect.updateProjectUploadStatus] }
            else w4
          let finalNotes := r.finalNotes
          let w6 := { w5 with
            uploadedNotes := finalNotes
            trace := w5.trace ++ [Effect.setUploadedNotes finalNotes,
                                  Effect.storageSet finalNotes] }
          if !env.storageSetOk then w6
          else { w6 with storage := some (Stored.notes finalNotes) }

/-- The function `handleUploadNotesPress`: one upload cycle. -/
def handleUploadNotesPress (env : Env) (w : World) : World :=
  match env.userEmail with
  | none => w
  | some _ =>
    if (unuploadedNotes w.uploadedNotes).length = 0 then w
    else
      let r := uploadLoop env.fetch 0 w.uploadedNotes
      let w1 := { w with
        uploadedNotes := r.uploadedNotes
        trace := w.trace ++ r.posts ++ [Effect.batchCommit r.batch] }
      if !env.commitOk then w1
      else afterCommit env r { w1 with uploadedNoteDocs := applyBatch r.batch w1.uploadedNoteDocs }

/-! ## `loadProjectDetails` -/

/-- The normalisation `{...note, isUploaded: note.isUploaded || false}`. -/
def normalizeNote (note : Note) : Note :=
  { note with isUploaded := some note.uploaded }

/-- The function `loadProjectDetails`: the project is fetched from the remote
ledger and put into the state when it exists; then the notes are read from the
device store, normalised and put into the context state.  A rejected call and
a stored value that does not parse leave for the `catch` block, which only
logs. -/
def loadProjectDetails (env : Env) (w : World) : World :=
  match env.userEmail with
  | none => w
  | some _ =>
    if !env.projectGetOk then w
    else
      let w1 := match w.remoteProject with
        | some projectData => { w with project := some projectData }
        | none => w
      if !env.storageGetOk then w1
      else
        match w1.storage with
        | some Stored.corrupt => w1
        | some (Stored.notes asyncStorageNotes) =>
          let allNotes := asyncStorageNotes.map normalizeNote
          { w1 with uploadedNotes := allNotes
                    trace := w1.trace ++ [Effect.setUploadedNotes allNotes] }
        | none =>
          { w1 with uploadedNotes := []
                    trace := w1.trace ++ [Effect.setUploadedNotes []] }

/-! ## Classes of calls -/

/-- An image POST to the upload endpoint. -/
def Effect.isPost : Effect → Bool
  | .post _ => true
  | _ => false

/-- A write of the `NotesUploaded` aggregate document. -/
def Effect.isAggregateWrite : Effect → Bool
  | .aggregateUpdate _ _ => true
  | .aggregateSet _ _ => true
  | _ => false

/-- A write of the project flag, remote (`projectRef.update`) or local
(`updateProjectUploadStatus`). -/
def Effect.isProjectFlagWrite : Effect → Bool
  | .projectUpdate => true
  | .updateProjectUploadStatus => true
  | _ => false

/-- A write of the device store (`AsyncStorage.setItem`). -/
def Effect.isStorageSet : Effect → Bool
  | .storageSet _ => true
  | _ => false

/-- The device store holds a note list in which every note written by the
batch `writes` occurs (by `Serial`) and is marked uploaded. -/
def storeRecordsUploaded (writes : List (String × Note)) : Option Stored → Prop
  | some (Stored.notes saved) =>
    ∀ kv ∈ writes, (∃ n ∈ saved, n.Serial = kv.2.Serial) ∧
      ∀ n ∈ saved, n.Serial = kv.2.Serial → n.isUploaded = some true
  | _ => False

/-! ## Scenarios -/

/-- A 2xx response whose body carries the given `secure_url`. -/
def okResponse (url : String) : FetchResult :=
  FetchResult.resolved { ok := true, status := 200, statusText := "OK", json := some (some url) }

/-- A 500 response. -/
def failResponse : FetchResult :=
  FetchResult.resolved { ok := false, status := 500, statusText := "Internal Server Error" }

/-- Three local-only notes with one vial image each. -/
def note1 : Note :=
  { Serial := "1", images := [.ref { uri := "file:///v1.jpg" }], isUploaded := some false }

def note2 : Note :=
  { Serial := "2", images := [.ref { uri := "file:///v2.jpg" }], isUploaded := some false }

def note3 : Note :=
  { Serial := "3", images := [.ref { uri := "file:///v3.jpg" }], isUploaded := some false }

/-- The notes 1 and 3 as the loop assigns them after their uploads. -/
def note1Uploaded : Note :=
  { Serial := "1", images := [.url "https://res/1/0"], isUploaded := some true }

def note2Uploaded : Note :=
  { Serial := "2", images := [.url "https://res/2/0"], isUploaded := some true }

def note3Uploaded : Note :=
  { Serial := "3", images := [.url "https://res/3/0"], isUploaded := some true }

/-- The project "Lake Survey", loaded, with the three notes loaded from the
device store and no aggregate document yet. -/
def lakeSurvey : World :=
  { project := some { projectName := "Lake Survey" }
    uploadedNotes := [note1, note2, note3]
    storage := some (Stored.notes [note1, note2, note3])
    remoteProject := some { projectName := "Lake Survey" } }

/-- The URL the scenarios return for image `j` of the note at position `i`. -/
def scenarioUrl (i j : Nat) : String :=
  "https://res/" ++ toString (i + 1) ++ "/" ++ toString j

/-- Every call succeeds, except that the image upload of the note at position 1
(note 2) is answered with a 500 response. -/
def envNote2Fails : Env :=
  { fetch := fun i _ j _ => if i = 1 then failResponse else okResponse (scenarioUrl i j) }

/-- Every image upload and the batch commit succeed, the write of the
aggregate document rejects. -/
def envAggregateFails : Env :=
  { fetch := fun i _ j _ => okResponse (scenarioUrl i j), aggregateWriteOk := false }

/-- Every image upload succeeds, the batch commit rejects. -/
def envCommitFails : Env :=
  { fetch := fun i _ j _ => okResponse (scenarioUrl i j), commitOk := false }

/-- Every call succeeds. -/
def envAllOk : Env :=
  { fetch := fun i _ j _ => okResponse (scenarioUrl i j) }

/-! ## `checkAndUploadNotes` -/

/-- The function `checkAndUploadNotes`, run every 10 seconds: it returns when
no project is loaded or the project has no `toDate`, and calls
`handleUploadNotesPress` when `currentDate > projectEndDate &&
!project.isUploaded`.  The first component tells whether the cycle was
called. `Project.toDate` holds the instant `new Date(project.toDate)` denotes. -/
def checkAndUploadNotes (env : Env) (w : World) : Bool × World :=
  match w.project with
  | none => (false, w)
  | some project =>
    match project.toDate with
    | none => (false, w)
    | some projectEndDate =>
      if decide (env.now > projectEndDate) && !project.isUploaded then
        (true, handleUploadNotesPress env w)
      else (false, w)

/-! ## Sequences of loads and cycles -/

/-- One run of `loadProjectDetails` or of `handleUploadNotesPress`, with the
outcomes of its calls. -/
inductive Step where
  | load (env : Env)
  | cycle (env : Env)

/-- The effect of one step on the world. -/
def Step.apply (s : Step) (w : World) : World :=
  match s with
  | .load env => loadProjectDetails env w
  | .cycle env => handleUploadNotesPress env w

/-- The effect of a sequence of steps, run one after the other. -/
def runSteps : List Step → World → World
  | [], w => w
  | s :: rest, w => runSteps rest (s.apply w)

/-- The note list held by the device store (empty when nothing readable is
stored). -/
def storedNotes (w : World) : List Note :=
  match w.storage with
  | some (Stored.notes l) => l
  | _ => []

/-- The in-memory list agrees with the device store on the uploaded notes: at
every position where the store holds an uploaded note, the in-memory list holds
a note of the same `Serial` that is uploaded (as after a load). -/
def memoryCoversStore (w : World) : Prop :=
  ∀ (i : Nat) (s : Note), (storedNotes w)[i]? = some s → s.isUploaded = some true →
    ∃ m : Note, w.uploadedNotes[i]? = some m ∧ m.Serial = s.Serial ∧
      m.isUploaded = some true

/-! ## The batch, by the outcomes of the uploads -/

/-- A fulfilled promise. -/
def succeeded : Except String String → Bool
  | .ok _ => true
  | .error _ => false

/-- Every vial and every habitat image upload of the note at position `i`
succeeds. -/
def allUploadsOk (fetch : Nat → Bool → Nat → FormData → FetchResult) (i : Nat)
    (note : Note) : Bool :=
  (uploadEach (fetch i false) 0 note.images).all succeeded &&
  (uploadEach (fetch i true) 0 note.imagess).all succeeded

/-- The pending notes whose image uploads all succeed, with their positions,
in the order of `uploadedNotes`. -/
def successfulPending (fetch : Nat → Bool → Nat → FormData → FetchResult) (k : Nat)
    (notes : List Note) : List (Nat × Note) :=
  (notes.enumFrom k).filter (fun p => !p.2.uploaded && allUploadsOk fetch p.1 p.2)

/-- A call of `batch.commit()`. -/
def Effect.isBatchCommit : Effect → Bool
  | .batchCommit _ => true
  | _ => false

/-- The `notes` list of the aggregate document of a project name (empty when
the document or its `notes` field is missing). -/
def aggregateNotes (projectName : String) (docs : List (String × Option (List Note))) :
    List Note :=
  match getDoc projectName docs with
  | some (some l) => l
  | _ => []

/-! ## Triggers while a cycle is suspended -/

/-- The screen between two events: the world and the number of calls of
`handleUploadNotesPress` that are suspended at an `await` (a count kept for
the statements; the code keeps no such variable). -/
structure Running where
  world : World
  inFlight : Nat

/-- The statements of `handleUploadNotesPress` that run before its first
`await` (lines 168-199): the user check, the filter, the return when nothing is
pending, and the start of the uploads of the vial images of the first pending
note.  A call that gets this far is suspended. -/
def startUpload (env : Env) (s : Running) : Running :=
  match env.userEmail with
  | none => s
  | some _ =>
    match unuploadedNotes s.world.uploadedNotes with
    | [] => s
    | note :: _ =>
      { world := { s.world with trace := s.world.trace ++ postsOf note.images }
        inFlight := s.inFlight + 1 }

/-- The expiry check as a trigger: `checkAndUploadNotes` up to the first
`await` of the cycle it calls. -/
def startCheck (env : Env) (s : Running) : Running :=
  match s.world.project with
  | none => s
  | some project =>
    match project.toDate with
    | none => s
    | some projectEndDate =>
      if decide (env.now > projectEndDate) && !project.isUploaded then startUpload env s
      else s

/-! ## Further scenarios -/

/-- A note uploaded in an earlier cycle. -/
def noteA : Note :=
  { Serial := "A", images := [.url "https://res/A/0"], isUploaded := some true }

/-- A local-only note. -/
def noteB : Note :=
  { Serial := "B", images := [.ref { uri := "file:///b.jpg" }], isUploaded := some false }

/-- A project with the notes A (uploaded) and B (not uploaded). -/
def projectAB : World :=
  { project := some { projectName := "Pond Survey" }
    uploadedNotes := [noteA, noteB]
    storage := some (Stored.notes [noteA, noteB])
    remoteProject := some { projectName := "Pond Survey" }
    uploadedNoteDocs := [("A", noteA)]
    notesUploaded := [("Pond Survey", some [noteA])] }

/-- The project "Lake Survey" with an end date in the past (instant 1000) and
two local-only notes with one image each. -/
def lakeSurveyExpired : World :=
  { project := some { projectName := "Lake Survey", toDate := some 1000 }
    uploadedNotes := [note1, note2]
    storage := some (Stored.notes [note1, note2])
    remoteProject := some { projectName := "Lake Survey", toDate := some 1000 } }

/-- Every call succeeds; the current instant is 2000. -/
def envLater : Env :=
  { fetch := fun i _ j _ => okResponse (scenarioUrl i j), now := 2000 }

/-- A 500 and a 404 response with the same status text and different bodies. -/
def response500 : Response :=
  { ok := false, status := 500, statusText := "", text := "internal error" }

def response404 : Response :=
  { ok := false, status := 404, statusText := "", text := "not found" }

/-- A 2xx response whose body has no `secure_url`. -/
def responseNoUrl : Response :=
  { ok := true, status := 200, statusText := "OK", text := "{}", json := some none }

/-! ## `handleDeleteImage` of `VialPicture.js` -/

/-- The property `image.uri` of an element of an image list (`undefined` for
an element that is a string). -/
def ImageEntry.uri : ImageEntry → Option String
  | .ref r => some r.uri
  | .url _ => none

/-- The state of the screen `VialPicture`: the route parameter `serial`, the
states `images` and `note`, the AsyncStorage item under `projectId`, and the
device-store writes issued so far. -/
structure VialPicture where
  serial : String
  images : List ImageEntry := []
  note : Option Note := none
  storage : Option Stored := none
  trace : List Effect := []

/-- The call `parsedData.findIndex(p)`: `none` stands for `-1`. -/
def findIndex (p : Note → Bool) : List Note → Option Nat
  | [] => none
  | n :: rest => if p n then some 0 else (findIndex p rest).map (fun k => k + 1)

/-- The assignment `parsedData[noteIndex].images = updatedImages`. -/
def assignImages (updatedImages : List ImageEntry) : Nat → List Note → List Note
  | _, [] => []
  | 0, n :: rest => { n with images := updatedImages } :: rest
  | k + 1, n :: rest => n :: assignImages updatedImages k rest

/-- The function `handleDeleteImage`; `imageUri` is the `item.uri` of the
pressed entry.  A rejected store call and a stored value that does not parse
leave for the `catch` block, which only logs. -/
def handleDeleteImage (env : Env) (imageUri : Option String) (s : VialPicture) : VialPicture :=
  let updatedImages := s.images.filter (fun image => image.uri != imageUri)
  let s1 := { s with
    images := updatedImages
    note := s.note.map (fun prevNote => { prevNote with images := updatedImages }) }
  if !env.storageGetOk then s1
  else
    match s1.storage with
    | none => s1
    | some Stored.corrupt => s1
    | some (Stored.notes parsedData) =>
      match findIndex (fun n => n.Serial == s.serial) parsedData with
      | none => s1
      | some noteIndex =>
        let written := assignImages updatedImages noteIndex parsedData
        let s2 := { s1 with trace := s1.trace ++ [Effect.storageSet written] }
        if !env.storageSetOk then s2
        else { s2 with storage := some (Stored.notes written) }

/-! ## `checkIfExpired` and the buttons of the project screen -/

/-- The function `checkIfExpired`.  `dayOf t` is the number of the local
calendar day of the instant `t`: the dates `new Date(year, month, date)` built
from the local year, month and date of two instants are ordered as their days.
`none` is a missing `toDate`, for which every comparison is false. -/
def checkIfExpired (dayOf : Int → Int) (now : Int) (dateString : Option Int) : Bool :=
  match dateString with
  | none => true
  | some givenDate => if dayOf givenDate < dayOf now then false else true

/-- The buttons rendered below the notes: `checkIfExpired(project.toDate) ?
(Upload, Add Site) : (Upload Excel File)`. -/
def projectButtons (dayOf : Int → Int) (now : Int) (project : Project) : List String :=
  if checkIfExpired dayOf now project.toDate then ["Upload", "Add Site"]
  else ["Upload Excel File"]

/-- The calendar day of UTC, an instant being a number of milliseconds. -/
def utcDay (t : Int) : Int := t / 86400000

/-! ## `handleNotePress` -/

/-- The call `replace(/[^\d]/g, '')`: the decimal digits of the string, in
order. -/
def digitsOnly (s : String) : String := String.mk (s.toList.filter Char.isDigit)

/-- The call `slice(-1)`: the last character, the empty string for the empty
string. -/
def sliceLast (s : String) : String :=
  match s.toList.getLast? with
  | some c => String.singleton c
  | none => ""

/-- The call of `navigation.navigate` with its parameters (`projectId` left
out). -/
inductive Navigation where
  | uploadedNoteScreen (note : Note) (noteSerial : String)
  | collectScreen (note : Note) (country : String) (noteSerial2 : String)
      (projectName : String)
  deriving DecidableEq

/-- The function `handleNotePress`, for the loaded project. -/
def handleNotePress (project : Project) (note : Note) : Navigation :=
  if project.isUploaded then Navigation.uploadedNoteScreen note note.Serial
  else
    let formattedNoteSerial2 := sliceLast (digitsOnly note.Serial)
    Navigation.collectScreen note project.country formattedNoteSerial2 project.projectName

/-! ## The counters of the home screen -/

/-- A project of the home screen, with the truthiness of its flags. -/
structure HomeProject where
  isAllocated : Bool := false
  isUploaded : Bool := false
  deriving DecidableEq

def totalCreated (allocatedProjects : List HomeProject) : Int := allocatedProjects.length

def totalAllocated (allocatedProjects : List HomeProject) : Int :=
  (allocatedProjects.filter (fun project => project.isAllocated)).length

def totalCount (allocatedProjects : List HomeProject) : Int :=
  totalCreated allocatedProjects + totalAllocated allocatedProjects

def uploadedCount (allocatedProjects : List HomeProject) : Int :=
  (allocatedProjects.filter (fun project => project.isUploaded)).length

def pendingCount (allocatedProjects : List HomeProject) : Int :=
  totalCreated allocatedProjects - uploadedCount allocatedProjects

/-! ## Scenarios of the loader and of the picture screen -/

/-- A screen that holds note 1 while the device store holds a value that does
not parse. -/
def corruptStore : World :=
  { project := some { projectName := "Lake Survey" }
    uploadedNotes := [note1]
    storage := some Stored.corrupt
    remoteProject := some { projectName := "Lake Survey" } }

/-- A screen with no notes loaded yet, note 1 in the device store and no
Project document in the remote ledger. -/
def projectMissing : World :=
  { uploadedNotes := []
    storage := some (Stored.notes [note1])
    remoteProject := none }

/-- A note with two vial images. -/
def noteTwoImages : Note :=
  { Serial := "1"
    images := [.ref { uri := "file:///v1.jpg" }, .ref { uri := "file:///v2.jpg" }]
    isUploaded := some false }

/-- The picture screen of the note "1" with its two images displayed. -/
def pictureScreen : VialPicture :=
  { serial := "1"
    images := [.ref { uri := "file:///v1.jpg" }, .ref { uri := "file:///v2.jpg" }]
    note := some noteTwoImages
    storage := some (Stored.notes [noteTwoImages, note2]) }

/-! ## Lemmas on the image loop -/

theorem postsOf_isPost (images : List ImageEntry) : ∀ e ∈ postsOf images, e.isPost = true := by
  intro e he
  simp only [postsOf, List.mem_map] at he
  obtain ⟨image, _, rfl⟩ := he
  rfl

theorem uploadNoteImages_isPost (fetch : Nat → Bool → Nat → FormData → FetchResult) (i : Nat)
    (note : Note) : ∀ e ∈ (uploadNoteImages fetch i note).2, e.isPost = true := by
  intro e he
  unfold uploadNoteImages at he
  split at he
  · exact postsOf_isPost _ e he
  · split at he
    · rcases List.mem_append.mp he with h | h
      · exact postsOf_isPost _ e h
      · exact postsOf_isPost _ e h
    · rcases List.mem_append.mp he with h | h
      · exact postsOf_isPost _ e h
      · exact postsOf_isPost _ e h

theorem uploadNoteImages_some (fetch : Nat → Bool → Nat → FormData → FetchResult) (i : Nat)
    (note note' : Note) (h : (uploadNoteImages fetch i note).1 = some note') :
    note'.Serial = note.Serial ∧ note'.isUploaded = some true ∧ note'.fields = note.fields ∧
    ∃ vial habitat,
      promiseAll (uploadEach (fetch i false) 0 note.images) = .ok vial ∧
      promiseAll (uploadEach (fetch i true) 0 note.imagess) = .ok habitat ∧
      note'.images = vial.map ImageEntry.url ∧ note'.imagess = habitat.map ImageEntry.url := by
  unfold uploadNoteImages at h
  split at h
  · simp at h
  · rename_i vial hv
    split at h
    · simp at h
    · rename_i habitat hh
      simp only [Option.some.injEq] at h
      subst h
      exact ⟨rfl, rfl, rfl, vial, habitat, hv, hh, rfl, rfl⟩

theorem uploadLoop_cons_uploaded (fetch : Nat → Bool → Nat → FormData → FetchResult) (k : Nat)
    (note : Note) (rest : List Note) (h : note.uploaded = true) :
    uploadLoop fetch k (note :: rest) =
      { objects := (false, note) :: (uploadLoop fetch (k + 1) rest).objects,
        batch := (uploadLoop fetch (k + 1) rest).batch,
        posts := (uploadLoop fetch (k + 1) rest).posts } := by
  rw [uploadLoop]
  simp [h]

theorem uploadLoop_cons_some (fetch : Nat → Bool → Nat → FormData → FetchResult) (k : Nat)
    (note note' : Note) (rest : List Note) (h : note.uploaded = false)
    (hup : (uploadNoteImages fetch k note).1 = some note') :
    uploadLoop fetch k (note :: rest) =
      { objects := (true, note') :: (uploadLoop fetch (k + 1) rest).objects,
        batch := (note'.Serial, note') :: (uploadLoop fetch (k + 1) rest).batch,
        posts := (uploadNoteImages fetch k note).2 ++ (uploadLoop fetch (k + 1) rest).posts } := by
  rw [uploadLoop]
  simp only [h]
  cases hr : uploadNoteImages fetch k note with
  | mk res posts =>
    rw [hr] at hup
    simp only at hup
    subst hup
    simp

theorem uploadLoop_cons_none (fetch : Nat → Bool → Nat → FormData → FetchResult) (k : Nat)
    (note : Note) (rest : List Note) (h : note.uploaded = false)
    (hup : (uploadNoteImages fetch k note).1 = none) :
    uploadLoop fetch k (note :: rest) =
      { objects := (true, note) :: (uploadLoop fetch (k + 1) rest).objects,
        batch := (uploadLoop fetch (k + 1) rest).batch,
        posts := (uploadNoteImages fetch k note).2 ++ (uploadLoop fetch (k + 1) rest).posts } := by
  rw [uploadLoop]
  simp only [h]
  cases hr : uploadNoteImages fetch k note with
  | mk res posts =>
    rw [hr] at hup
    simp only at hup
    subst hup
    simp

theorem uploadLoop_posts_isPost (fetch : Nat → Bool → Nat → FormData → FetchResult) :
    ∀ (l : List Note) (k : Nat), ∀ e ∈ (uploadLoop fetch k l).posts, e.isPost = true := by
  intro l
  induction l with
  | nil => intro k e he; simp [uploadLoop] at he
  | cons note rest ih =>
    intro k e he
    cases hu : note.uploaded with
    | true =>
      rw [uploadLoop_cons_uploaded fetch k note rest hu] at he
      exact ih (k + 1) e he
    | false =>
      cases hup : (uploadNoteImages fetch k note).1 with
      | some note' =>
        rw [uploadLoop_cons_some fetch k note note' rest hu hup] at he
        rcases List.mem_append.mp he with h | h
        · exact uploadNoteImages_isPost fetch k note e h
        · exact ih (k + 1) e h
      | none =>
        rw [uploadLoop_cons_none fetch k note rest hu hup] at he
        rcases List.mem_append.mp he with h | h
        · exact uploadNoteImages_isPost fetch k note e h
        · exact ih (k + 1) e h

theorem uploadLoop_objects_getElem (fetch : Nat → Bool → Nat → FormData → FetchResult) :
    ∀ (l : List Note) (k i : Nat) (note note' : Note), l[i]? = some note →
      note.uploaded = false → (uploadNoteImages fetch (k + i) note).1 = some note' →
      (uploadLoop fetch k l).objects[i]? = some (true, note') ∧
      (note'.Serial, note') ∈ (uploadLoop fetch k l).batch := by
  intro l
  induction l with
  | nil => intro k i note note' h; simp at h
  | cons head rest ih =>
    intro k i note note' hi hp hup
    cases i with
    | zero =>
      simp only [List.getElem?_cons_zero, Option.some.injEq] at hi
      subst hi
      simp only [Nat.add_zero] at hup
      rw [uploadLoop_cons_some fetch k head note' rest hp hup]
      simp
    | succ j =>
      simp only [List.getElem?_cons_succ] at hi
      have hup' : (uploadNoteImages fetch (k + 1 + j) note).1 = some note' := by
        rw [show k + 1 + j = k + (j + 1) by omega]; exact hup
      obtain ⟨h1, h2⟩ := ih (k + 1) j note note' hi hp hup'
      cases hu : head.uploaded with
      | true =>
        rw [uploadLoop_cons_uploaded fetch k head rest hu]
        simp [h1, h2]
      | false =>
        cases hh : (uploadNoteImages fetch k head).1 with
        | some head' =>
          rw [uploadLoop_cons_some fetch k head head' rest hu hh]
          simp [h1, h2]
        | none =>
          rw [uploadLoop_cons_none fetch k head rest hu hh]
          simp [h1, h2]

theorem uploadLoop_batch_mem (fetch : Nat → Bool → Nat → FormData → FetchResult) :
    ∀ (l : List Note) (k : Nat), ∀ kv ∈ (uploadLoop fetch k l).batch,
      kv.1 = kv.2.Serial ∧ (true, kv.2) ∈ (uploadLoop fetch k l).objects := by
  intro l
  induction l with
  | nil => intro k kv h; simp [uploadLoop] at h
  | cons head rest ih =>
    intro k kv h
    cases hu : head.uploaded with
    | true =>
      rw [uploadLoop_cons_uploaded fetch k head rest hu] at h ⊢
      obtain ⟨h1, h2⟩ := ih (k + 1) kv h
      exact ⟨h1, List.mem_cons_of_mem _ h2⟩
    | false =>
      cases hh : (uploadNoteImages fetch k head).1 with
      | some head' =>
        rw [uploadLoop_cons_some fetch k head head' rest hu hh] at h ⊢
        rcases List.mem_cons.mp h with h | h
        · subst h
          simp
        · obtain ⟨h1, h2⟩ := ih (k + 1) kv h
          exact ⟨h1, List.mem_cons_of_mem _ h2⟩
      | none =>
        rw [uploadLoop_cons_none fetch k head rest hu hh] at h ⊢
        obtain ⟨h1, h2⟩ := ih (k + 1) kv h
        exact ⟨h1, List.mem_cons_of_mem _ h2⟩

theorem mem_unuploadedNotes_of_mem_objects (r : LoopResult) (note : Note)
    (h : (true, note) ∈ r.objects) : note ∈ r.unuploadedNotes := by
  unfold LoopResult.unuploadedNotes
  exact List.mem_map.mpr ⟨(true, note), List.mem_filter.mpr ⟨h, rfl⟩, rfl⟩

theorem unuploadedNotes_subset_uploadedNotes (r : LoopResult) (note : Note)
    (h : note ∈ r.unuploadedNotes) : note ∈ r.uploadedNotes := by
  unfold LoopResult.unuploadedNotes at h
  unfold LoopResult.uploadedNotes
  obtain ⟨o, ho, rfl⟩ := List.mem_map.mp h
  exact List.mem_map.mpr ⟨o, (List.mem_filter.mp ho).1, rfl⟩

theorem promiseAll_uploadEach_ok (fetch : Nat → FormData → FetchResult) :
    ∀ (images : List ImageEntry) (k : Nat),
      (∀ j image, images[j]? = some image →
        ∃ url, uploadToCloudinary (fetch (k + j)) image = .ok url) →
      ∃ urls, promiseAll (uploadEach fetch k images) = .ok urls := by
  intro images
  induction images with
  | nil => intro k _; exact ⟨[], rfl⟩
  | cons image rest ih =>
    intro k h
    obtain ⟨url, hurl⟩ := h 0 image (by simp)
    obtain ⟨urls, hurls⟩ := ih (k + 1) (fun j img hj => by
      have := h (j + 1) img (by simpa using hj)
      rwa [show k + (j + 1) = k + 1 + j by omega] at this)
    refine ⟨url :: urls, ?_⟩
    simp only [Nat.add_zero] at hurl
    simp [uploadEach, hurl, promiseAll, hurls]

theorem uploadNoteImages_ok (fetch : Nat → Bool → Nat → FormData → FetchResult) (i : Nat)
    (note : Note)
    (hvial : ∀ j image, note.images[j]? = some image →
      ∃ url, uploadToCloudinary (fetch i false j) image = .ok url)
    (hhabitat : ∀ j image, note.imagess[j]? = some image →
      ∃ url, uploadToCloudinary (fetch i true j) image = .ok url) :
    ∃ note', (uploadNoteImages fetch i note).1 = some note' := by
  obtain ⟨vial, hv⟩ := promiseAll_uploadEach_ok (fetch i false) note.images 0
    (fun j image hj => by simpa using hvial j image hj)
  obtain ⟨habitat, hh⟩ := promiseAll_uploadEach_ok (fetch i true) note.imagess 0
    (fun j image hj => by simpa using hhabitat j image hj)
  unfold uploadNoteImages
  simp [hv, hh]

theorem unuploadedNotes_ne_nil_of_getElem (l : List Note) (i : Nat) (note : Note)
    (hi : l[i]? = some note) (hp : note.uploaded = false) :
    (unuploadedNotes l).length ≠ 0 := by
  have hmem : note ∈ unuploadedNotes l := by
    unfold unuploadedNotes
    exact List.mem_filter.mpr ⟨List.mem_iff_getElem?.mpr ⟨i, hi⟩, by simp [hp]⟩
  intro h
  rw [List.length_eq_zero] at h
  rw [h] at hmem
  simp at hmem

/-- The test `allNotesUploaded` holds after every run of the loop: an object of
`uploadedNotes` is uploaded or is an element of `unuploadedNotes`. -/
theorem uploadLoop_allNotesUploaded (fetch : Nat → Bool → Nat → FormData → FetchResult) :
    ∀ (l : List Note) (k : Nat), (uploadLoop fetch k l).allNotesUploaded = true := by
  intro l
  induction l with
  | nil => intro k; rfl
  | cons head rest ih =>
    intro k
    have hrest := ih (k + 1)
    unfold LoopResult.allNotesUploaded at hrest ⊢
    cases hu : head.uploaded with
    | true =>
      rw [uploadLoop_cons_uploaded fetch k head rest hu]
      simp [hu, hrest]
    | false =>
      cases hh : (uploadNoteImages fetch k head).1 with
      | some head' =>
        rw [uploadLoop_cons_some fetch k head head' rest hu hh]
        simp [hrest]
      | none =>
        rw [uploadLoop_cons_none fetch k head rest hu hh]
        simp [hrest]

/-- The cycle when every call after the image loop succeeds. -/
theorem handleUploadNotesPress_all_ok (env : Env) (w : World) (project : Project)
    (hUser : env.userEmail ≠ none) (hPending : (unuploadedNotes w.uploadedNotes).length ≠ 0)
    (hProject : w.project = some project) (hCommit : env.commitOk = true)
    (hGet : env.aggregateGetOk = true) (hWrite : env.aggregateWriteOk = true)
    (hFlag : env.projectUpdateOk = true) (hStore : env.storageSetOk = true) :
    (handleUploadNotesPress env w).storage =
        some (Stored.notes (uploadLoop env.fetch 0 w.uploadedNotes).finalNotes) ∧
    (handleUploadNotesPress env w).uploadedNoteDocs =
        applyBatch (uploadLoop env.fetch 0 w.uploadedNotes).batch w.uploadedNoteDocs ∧
    ∃ rest, (handleUploadNotesPress env w).trace =
        w.trace ++ (uploadLoop env.fetch 0 w.uploadedNotes).posts ++
          Effect.batchCommit (uploadLoop env.fetch 0 w.uploadedNotes).batch :: rest := by
  unfold handleUploadNotesPress
  cases hu : env.userEmail with
  | none => exact absurd hu hUser
  | some email =>
    simp [hPending, hCommit, afterCommit, hProject, hGet, hWrite, hFlag, hStore,
      uploadLoop_allNotesUploaded]

theorem finalNotes_records_batch (fetch : Nat → Bool → Nat → FormData → FetchResult)
    (l : List Note) (k : Nat) :
    storeRecordsUploaded (uploadLoop fetch k l).batch
      (some (Stored.notes (uploadLoop fetch k l).finalNotes)) := by
  intro kv hkv
  obtain ⟨_, hobj⟩ := uploadLoop_batch_mem fetch l k kv hkv
  have hun := mem_unuploadedNotes_of_mem_objects _ _ hobj
  have hup := unuploadedNotes_subset_uploadedNotes _ _ hun
  constructor
  · refine ⟨_, List.mem_map.mpr ⟨kv.2, hup, rfl⟩, ?_⟩
    split <;> rfl
  · intro n hn hs
    obtain ⟨m, _, rfl⟩ := List.mem_map.mp hn
    have hany : (uploadLoop fetch k l).unuploadedNotes.any
        (fun unNote => unNote.Serial == m.Serial) = true := by
      rw [List.any_eq_true]
      refine ⟨kv.2, hun, ?_⟩
      split at hs <;> simp_all
    simp [hany]

theorem handleUploadNotesPress_commit_fails (env : Env) (w : World)
    (hCommit : env.commitOk = false) :
    (handleUploadNotesPress env w).storage = w.storage ∧
    (handleUploadNotesPress env w).uploadedNoteDocs = w.uploadedNoteDocs ∧
    (handleUploadNotesPress env w).notesUploaded = w.notesUploaded ∧
    (handleUploadNotesPress env w).remoteProject = w.remoteProject ∧
    (handleUploadNotesPress env w).contextUploadStatus = w.contextUploadStatus ∧
    (handleUploadNotesPress env w).project = w.project ∧
    ((handleUploadNotesPress env w).trace = w.trace ∨
     (handleUploadNotesPress env w).trace =
       w.trace ++ (uploadLoop env.fetch 0 w.uploadedNotes).posts ++
         [Effect.batchCommit (uploadLoop env.fetch 0 w.uploadedNotes).batch]) := by
  unfold handleUploadNotesPress
  cases env.userEmail with
  | none => simp
  | some email =>
    by_cases hp : (unuploadedNotes w.uploadedNotes).length = 0
    · simp [hp]
    · simp [hp, hCommit]

/-! ## The claims -/

/-- C1 (code defect): in the cycle on "Lake Survey" in which the image upload of
note 2 fails while the batch commit and every later step succeed, the list the
cycle saves to the device store has note 2 with `isUploaded = true`, although
its image was not uploaded and its document is not in the committed batch. -/
theorem failed_note_saved_as_uploaded :
    (uploadNoteImages envNote2Fails.fetch 1 note2).1 = none ∧
    (uploadLoop envNote2Fails.fetch 0 lakeSurvey.uploadedNotes).batch =
      [("1", note1Uploaded), ("3", note3Uploaded)] ∧
    (handleUploadNotesPress envNote2Fails lakeSurvey).storage =
      some (Stored.notes
        [note1Uploaded, { note2 with isUploaded := some true }, note3Uploaded]) := by
  decide

/-- C2 (code defect): in the cycle on "Lake Survey" in which the image upload of
note 2 fails, note 2 has no document in the remote ledger, yet the cycle issues
`projectRef.update` and `updateProjectUploadStatus` and the Project is marked
uploaded remotely and locally. -/
theorem project_marked_uploaded_despite_failed_note :
    (uploadNoteImages envNote2Fails.fetch 1 note2).1 = none ∧
    getDoc "2" (handleUploadNotesPress envNote2Fails lakeSurvey).uploadedNoteDocs = none ∧
    Effect.projectUpdate ∈ (handleUploadNotesPress envNote2Fails lakeSurvey).trace ∧
    Effect.updateProjectUploadStatus ∈
      (handleUploadNotesPress envNote2Fails lakeSurvey).trace ∧
    (handleUploadNotesPress envNote2Fails lakeSurvey).remoteProject =
      some { projectName := "Lake Survey", isUploaded := true } ∧
    (handleUploadNotesPress envNote2Fails lakeSurvey).contextUploadStatus = true := by
  decide

/-- C3: when the batch commit fails, the cycle leaves the device store, the
remote note documents, the aggregate, the remote Project document and the local
project status as they were, and the calls it issued contain no aggregate
write, no project-flag write and no device-store write. -/
theorem commit_failure_writes_nothing (env : Env) (w : World)
    (hCommit : env.commitOk = false) :
    (handleUploadNotesPress env w).storage = w.storage ∧
    (handleUploadNotesPress env w).uploadedNoteDocs = w.uploadedNoteDocs ∧
    (handleUploadNotesPress env w).notesUploaded = w.notesUploaded ∧
    (handleUploadNotesPress env w).remoteProject = w.remoteProject ∧
    (handleUploadNotesPress env w).contextUploadStatus = w.contextUploadStatus ∧
    ∃ issued, (handleUploadNotesPress env w).trace = w.trace ++ issued ∧
      ∀ e ∈ issued, e.isAggregateWrite = false ∧ e.isProjectFlagWrite = false ∧
        e.isStorageSet = false := by
  obtain ⟨h1, h2, h3, h4, h5, _, h7⟩ := handleUploadNotesPress_commit_fails env w hCommit
  refine ⟨h1, h2, h3, h4, h5, ?_⟩
  rcases h7 with h | h
  · exact ⟨[], by simp [h], by simp⟩
  · refine ⟨(uploadLoop env.fetch 0 w.uploadedNotes).posts ++
      [Effect.batchCommit (uploadLoop env.fetch 0 w.uploadedNotes).batch], by simp [h], ?_⟩
    intro e he
    rcases List.mem_append.mp he with hpost | hcommit
    · have := uploadLoop_posts_isPost env.fetch w.uploadedNotes 0 e hpost
      cases e <;> simp_all [Effect.isPost, Effect.isAggregateWrite,
        Effect.isProjectFlagWrite, Effect.isStorageSet]
    · simp only [List.mem_singleton] at hcommit
      subst hcommit
      exact ⟨rfl, rfl, rfl⟩

/-- Witness of C3: the cycle on "Lake Survey" whose batch commit rejects. -/
theorem commit_failure_writes_nothing_witness :
    envCommitFails.commitOk = false ∧
    (handleUploadNotesPress envCommitFails lakeSurvey).storage = lakeSurvey.storage ∧
    (handleUploadNotesPress envCommitFails lakeSurvey).uploadedNoteDocs =
      lakeSurvey.uploadedNoteDocs ∧
    (handleUploadNotesPress envCommitFails lakeSurvey).notesUploaded =
      lakeSurvey.notesUploaded ∧
    (handleUploadNotesPress envCommitFails lakeSurvey).remoteProject =
      lakeSurvey.remoteProject ∧
    (handleUploadNotesPress envCommitFails lakeSurvey).contextUploadStatus =
      lakeSurvey.contextUploadStatus ∧
    ∃ issued, (handleUploadNotesPress envCommitFails lakeSurvey).trace =
        lakeSurvey.trace ++ issued ∧
      ∀ e ∈ issued, e.isAggregateWrite = false ∧ e.isProjectFlagWrite = false ∧
        e.isStorageSet = false :=
  ⟨rfl, commit_failure_writes_nothing envCommitFails lakeSurvey rfl⟩

/-- C4 (counterexample): in the cycle on "Lake Survey" whose batch commit
succeeds and whose aggregate write rejects, the three note documents are in the
remote ledger while the device store still holds the three notes as not
uploaded. -/
theorem committed_notes_not_recorded_when_aggregate_fails :
    envAggregateFails.commitOk = true ∧
    (handleUploadNotesPress envAggregateFails lakeSurvey).uploadedNoteDocs =
      [("1", note1Uploaded), ("2", note2Uploaded), ("3", note3Uploaded)] ∧
    (handleUploadNotesPress envAggregateFails lakeSurvey).storage =
      some (Stored.notes [note1, note2, note3]) ∧
    ¬ storeRecordsUploaded
        (uploadLoop envAggregateFails.fetch 0 lakeSurvey.uploadedNotes).batch
        (handleUploadNotesPress envAggregateFails lakeSurvey).storage := by
  refine ⟨rfl, by decide, by decide, ?_⟩
  intro h
  have h1 := (h ("1", note1Uploaded) (by decide)).2 note1 (by decide) rfl
  exact absurd h1 (by decide)

/-- C4 (amended): in a cycle with a pending note whose batch commit, aggregate
read and write, project-flag update and device-store write all succeed, the
batch is applied to the remote ledger and the device store at the end holds a
list in which every note of the committed batch occurs and is marked
uploaded. -/
theorem store_records_committed_notes (env : Env) (w : World) (project : Project)
    (hUser : env.userEmail ≠ none)
    (hPending : (unuploadedNotes w.uploadedNotes).length ≠ 0)
    (hProject : w.project = some project) (hCommit : env.commitOk = true)
    (hGet : env.aggregateGetOk = true) (hWrite : env.aggregateWriteOk = true)
    (hFlag : env.projectUpdateOk = true) (hStore : env.storageSetOk = true) :
    (handleUploadNotesPress env w).uploadedNoteDocs =
      applyBatch (uploadLoop env.fetch 0 w.uploadedNotes).batch w.uploadedNoteDocs ∧
    storeRecordsUploaded (uploadLoop env.fetch 0 w.uploadedNotes).batch
      (handleUploadNotesPress env w).storage := by
  obtain ⟨h1, h2, _⟩ := handleUploadNotesPress_all_ok env w project hUser hPending hProject
    hCommit hGet hWrite hFlag hStore
  rw [h1]
  exact ⟨h2, finalNotes_records_batch env.fetch w.uploadedNotes 0⟩

/-- Witness of C4 (amended): the cycle on "Lake Survey" in which every call
succeeds. -/
theorem store_records_committed_notes_witness :
    (handleUploadNotesPress envAllOk lakeSurvey).uploadedNoteDocs =
      applyBatch (uploadLoop envAllOk.fetch 0 lakeSurvey.uploadedNotes).batch
        lakeSurvey.uploadedNoteDocs ∧
    storeRecordsUploaded (uploadLoop envAllOk.fetch 0 lakeSurvey.uploadedNotes).batch
      (handleUploadNotesPress envAllOk lakeSurvey).storage :=
  store_records_committed_notes envAllOk lakeSurvey { projectName := "Lake Survey" }
    (by decide) (by decide) rfl rfl rfl rfl rfl rfl

/-- C5: in a cycle whose remote steps succeed, every pending note all of whose
vial and habitat image uploads succeed is written, with its `Serial` and marked
uploaded, into the batch the cycle commits, and the saved list holds it at the
note's position, whatever happens to the uploads of the other notes. -/
theorem successful_note_committed_and_saved (env : Env) (w : World) (project : Project)
    (i : Nat) (note : Note)
    (hUser : env.userEmail ≠ none) (hProject : w.project = some project)
    (hCommit : env.commitOk = true) (hGet : env.aggregateGetOk = true)
    (hWrite : env.aggregateWriteOk = true) (hFlag : env.projectUpdateOk = true)
    (hStore : env.storageSetOk = true)
    (hi : w.uploadedNotes[i]? = some note) (hp : note.uploaded = false)
    (hvial : ∀ j image, note.images[j]? = some image →
      ∃ url, uploadToCloudinary (env.fetch i false j) image = .ok url)
    (hhabitat : ∀ j image, note.imagess[j]? = some image →
      ∃ url, uploadToCloudinary (env.fetch i true j) image = .ok url) :
    ∃ note', note'.Serial = note.Serial ∧ note'.isUploaded = some true ∧
      (note'.Serial, note') ∈ (uploadLoop env.fetch 0 w.uploadedNotes).batch ∧
      (∃ rest, (handleUploadNotesPress env w).trace =
        w.trace ++ (uploadLoop env.fetch 0 w.uploadedNotes).posts ++
          Effect.batchCommit (uploadLoop env.fetch 0 w.uploadedNotes).batch :: rest) ∧
      (handleUploadNotesPress env w).uploadedNoteDocs =
        applyBatch (uploadLoop env.fetch 0 w.uploadedNotes).batch w.uploadedNoteDocs ∧
      ∃ saved, (handleUploadNotesPress env w).storage = some (Stored.notes saved) ∧
        saved[i]? = some note' := by
  obtain ⟨note', hup⟩ := uploadNoteImages_ok env.fetch i note hvial hhabitat
  obtain ⟨hs, hu, _⟩ := uploadNoteImages_some env.fetch i note note' hup
  have hPending := unuploadedNotes_ne_nil_of_getElem w.uploadedNotes i note hi hp
  obtain ⟨h1, h2, h3⟩ := handleUploadNotesPress_all_ok env w project hUser hPending hProject
    hCommit hGet hWrite hFlag hStore
  obtain ⟨hobj, hbatch⟩ := uploadLoop_objects_getElem env.fetch w.uploadedNotes 0 i note note'
    hi hp (by simpa using hup)
  refine ⟨note', hs, hu, hbatch, h3, h2, _, h1, ?_⟩
  unfold LoopResult.finalNotes LoopResult.uploadedNotes
  rw [List.getElem?_map, List.getElem?_map, hobj]
  simp only [Option.map_some']
  split
  · cases note'
    simp_all
  · rfl

/-- Witness of C5: three pending notes, the upload of note 2 fails; note 3 (at
position 2) is committed and saved as uploaded. -/
theorem successful_note_committed_and_saved_witness :
    (uploadNoteImages envNote2Fails.fetch 1 note2).1 = none ∧
    ∃ note', note'.Serial = note3.Serial ∧ note'.isUploaded = some true ∧
      (note'.Serial, note') ∈
        (uploadLoop envNote2Fails.fetch 0 lakeSurvey.uploadedNotes).batch ∧
      (∃ rest, (handleUploadNotesPress envNote2Fails lakeSurvey).trace =
        lakeSurvey.trace ++ (uploadLoop envNote2Fails.fetch 0 lakeSurvey.uploadedNotes).posts ++
          Effect.batchCommit
            (uploadLoop envNote2Fails.fetch 0 lakeSurvey.uploadedNotes).batch :: rest) ∧
      (handleUploadNotesPress envNote2Fails lakeSurvey).uploadedNoteDocs =
        applyBatch (uploadLoop envNote2Fails.fetch 0 lakeSurvey.uploadedNotes).batch
          lakeSurvey.uploadedNoteDocs ∧
      ∃ saved, (handleUploadNotesPress envNote2Fails lakeSurvey).storage =
          some (Stored.notes saved) ∧
        saved[2]? = some note' :=
  ⟨by decide,
   successful_note_committed_and_saved envNote2Fails lakeSurvey { projectName := "Lake Survey" }
    2 note3 (by decide) rfl rfl rfl rfl rfl rfl rfl rfl
    (fun j image h => by
      cases j with
      | zero =>
        simp only [note3, List.getElem?_cons_zero, Option.some.injEq] at h
        subst h
        exact ⟨_, rfl⟩
      | succ k => simp [note3] at h)
    (fun j image h => by simp [note3] at h)⟩

/-- C6 (code defect): in the cycle on "Lake Survey" in which the image upload of
note 2 fails, the saved list turns note 2 from not uploaded to uploaded while
its vial image list still holds the local image reference. -/
theorem uploaded_note_keeps_local_image :
    note2.isUploaded = some false ∧
    ∃ saved, (handleUploadNotesPress envNote2Fails lakeSurvey).storage =
        some (Stored.notes saved) ∧
      ∃ n ∈ saved, n.Serial = note2.Serial ∧ n.isUploaded = some true ∧
        ImageEntry.ref { uri := "file:///v2.jpg" } ∈ n.images :=
  ⟨rfl, [note1Uploaded, { note2 with isUploaded := some true }, note3Uploaded], by decide,
    { note2 with isUploaded := some true }, by decide, rfl, rfl, by decide⟩

/-- C7 (code defect): in the cycle on "Lake Survey" in which the image upload of
note 2 fails, the committed batch holds the notes 1 and 3 only, while the list
written to the aggregate of "Lake Survey" holds note 2 as well. -/
theorem aggregate_receives_uncommitted_note :
    Effect.batchCommit [("1", note1Uploaded), ("3", note3Uploaded)] ∈
      (handleUploadNotesPress envNote2Fails lakeSurvey).trace ∧
    Effect.aggregateSet "Lake Survey" [note1Uploaded, note2, note3Uploaded] ∈
      (handleUploadNotesPress envNote2Fails lakeSurvey).trace := by
  decide

/-- C8 (code defect): one cycle on "Lake Survey" that runs to its end, started
with no aggregate document and three notes of distinct serials, the upload of
note 2 failing: the remote ledger holds the notes 1 and 3, the aggregate list
of "Lake Survey" holds the notes 1, 2 and 3. -/
theorem aggregate_differs_from_committed_notes :
    getDoc "Lake Survey" lakeSurvey.notesUploaded = none ∧
    (lakeSurvey.uploadedNotes.map Note.Serial).Nodup ∧
    (handleUploadNotesPress envNote2Fails lakeSurvey).uploadedNoteDocs =
      [("1", note1Uploaded), ("3", note3Uploaded)] ∧
    getDoc "Lake Survey" (handleUploadNotesPress envNote2Fails lakeSurvey).notesUploaded =
      some (some [note1Uploaded, note2, note3Uploaded]) := by
  decide

/-- C9 (counterexample): after the cycle on "Lake Survey" whose batch commit
rejects, the three notes, whose images had been uploaded, are marked uploaded
in the in-memory list, so a cycle started from that list selects no pending
note and does nothing. -/
theorem uploaded_notes_not_pending_in_memory :
    envCommitFails.commitOk = false ∧
    (uploadNoteImages envCommitFails.fetch 0 note1).1 = some note1Uploaded ∧
    (handleUploadNotesPress envCommitFails lakeSurvey).uploadedNotes =
      [note1Uploaded, note2Uploaded, note3Uploaded] ∧
    unuploadedNotes (handleUploadNotesPress envCommitFails lakeSurvey).uploadedNotes = [] ∧
    (handleUploadNotesPress envAllOk
      (handleUploadNotesPress envCommitFails lakeSurvey)).trace =
      (handleUploadNotesPress envCommitFails lakeSurvey).trace := by
  decide

/-- C9 (amended): after a cycle whose batch commit fails, started from the note
list loaded from the device store, the list reloaded from the device store
holds every note that was pending in that cycle (so every note whose images had
been uploaded in it) unchanged at its position, and the next cycle selects it
as pending again. -/
theorem pending_again_after_reload (env envLoad : Env) (w : World) (stored : List Note)
    (i : Nat) (note : Note)
    (hCommit : env.commitOk = false)
    (hStorage : w.storage = some (Stored.notes stored))
    (hLoaded : w.uploadedNotes = stored.map normalizeNote)
    (hUser : envLoad.userEmail ≠ none) (hProjectGet : envLoad.projectGetOk = true)
    (hStorageGet : envLoad.storageGetOk = true)
    (hi : w.uploadedNotes[i]? = some note) (hp : note.uploaded = false) :
    (loadProjectDetails envLoad (handleUploadNotesPress env w)).uploadedNotes[i]? = some note ∧
    note ∈ unuploadedNotes
      (loadProjectDetails envLoad (handleUploadNotesPress env w)).uploadedNotes := by
  obtain ⟨h1, _, _, _, _, _, _⟩ := handleUploadNotesPress_commit_fails env w hCommit
  have hload : (loadProjectDetails envLoad (handleUploadNotesPress env w)).uploadedNotes =
      w.uploadedNotes := by
    unfold loadProjectDetails
    cases hu : envLoad.userEmail with
    | none => exact absurd hu hUser
    | some email =>
      simp only [hProjectGet, hStorageGet, Bool.not_true, Bool.false_eq_true, if_false]
      cases (handleUploadNotesPress env w).remoteProject <;> simp [h1, hStorage, hLoaded]
  rw [hload]
  refine ⟨hi, ?_⟩
  unfold unuploadedNotes
  exact List.mem_filter.mpr ⟨List.mem_iff_getElem?.mpr ⟨i, hi⟩, by simp [hp]⟩

/-- Witness of C9 (amended): the cycle on "Lake Survey" whose batch commit
rejects, followed by a reload; note 1 is pending again. -/
theorem pending_again_after_reload_witness :
    (uploadNoteImages envCommitFails.fetch 0 note1).1 = some note1Uploaded ∧
    (loadProjectDetails envAllOk
      (handleUploadNotesPress envCommitFails lakeSurvey)).uploadedNotes[0]? = some note1 ∧
    note1 ∈ unuploadedNotes (loadProjectDetails envAllOk
      (handleUploadNotesPress envCommitFails lakeSurvey)).uploadedNotes :=
  ⟨by decide,
   pending_again_after_reload envCommitFails envAllOk lakeSurvey [note1, note2, note3] 0 note1
    rfl rfl (by decide) (by decide) rfl rfl rfl rfl⟩

/-- C10: when every note of the in-memory list is uploaded (in particular when
the list is empty), the cycle returns the world as it was: no call is issued
and nothing is written. -/
theorem no_pending_note_no_side_effect (env : Env) (w : World)
    (h : ∀ n ∈ w.uploadedNotes, n.isUploaded = some true) :
    handleUploadNotesPress env w = w := by
  have hnil : (unuploadedNotes w.uploadedNotes).length = 0 := by
    rw [List.length_eq_zero]
    unfold unuploadedNotes
    rw [List.filter_eq_nil_iff]
    intro n hn
    simp [Note.uploaded, h n hn]
  unfold handleUploadNotesPress
  cases env.userEmail <;> simp [hnil]

/-- Witness of C10: a second press after a cycle in which every call succeeded. -/
theorem no_pending_note_no_side_effect_witness :
    (∀ n ∈ (handleUploadNotesPress envAllOk lakeSurvey).uploadedNotes,
      n.isUploaded = some true) ∧
    handleUploadNotesPress envAllOk (handleUploadNotesPress envAllOk lakeSurvey) =
      handleUploadNotesPress envAllOk lakeSurvey :=
  ⟨by decide, no_pending_note_no_side_effect envAllOk
    (handleUploadNotesPress envAllOk lakeSurvey) (by decide)⟩

/-! ## Lemmas on the outcomes of a cycle -/

theorem aggregateWrite_effect (projectName : String) (existing : Option (Option (List Note)))
    (unuploaded : List Note) :
    (aggregateWrite projectName existing unuploaded).1.isBatchCommit = false ∧
    (aggregateWrite projectName existing unuploaded).1.isPost = false := by
  cases existing <;> exact ⟨rfl, rfl⟩

theorem afterCommit_trace (env : Env) (r : LoopResult) (w : World) :
    ∃ extra, (afterCommit env r w).trace = w.trace ++ extra ∧
      ∀ e ∈ extra, e.isBatchCommit = false ∧ e.isPost = false := by
  unfold afterCommit
  cases w.project with
  | none => exact ⟨[], by simp, by simp⟩
  | some project =>
    have hw := aggregateWrite_effect project.projectName
      (getDoc project.projectName w.notesUploaded) r.unuploadedNotes
    cases env.aggregateGetOk <;> cases env.aggregateWriteOk <;> cases env.projectUpdateOk <;>
      cases env.storageSetOk <;> cases r.allNotesUploaded <;>
      simp only [Bool.not_true, Bool.not_false, Bool.and_true, Bool.and_false, Bool.false_and,
        Bool.true_and, if_true, if_false, Bool.false_eq_true, List.append_assoc] <;>
      exact ⟨_, rfl, by
        intro e he
        simp at he
        repeat' (rcases he with he | he)
        all_goals
          first
          | exact hw
          | exact ⟨rfl, rfl⟩⟩

theorem afterCommit_outcome (env : Env) (r : LoopResult) (w : World) :
    ((afterCommit env r w).storage = w.storage ∧
      ((afterCommit env r w).uploadedNotes = w.uploadedNotes ∨
       (afterCommit env r w).uploadedNotes = r.finalNotes)) ∨
    ((afterCommit env r w).storage = some (Stored.notes r.finalNotes) ∧
      (afterCommit env r w).uploadedNotes = r.finalNotes) := by
  unfold afterCommit
  cases w.project with
  | none => simp
  | some project =>
    cases env.aggregateGetOk <;> cases env.aggregateWriteOk <;> cases env.projectUpdateOk <;>
      cases env.storageSetOk <;> cases r.allNotesUploaded <;> simp

theorem handleUploadNotesPress_outcome (env : Env) (w : World) :
    ((handleUploadNotesPress env w).storage = w.storage ∧
      ((handleUploadNotesPress env w).uploadedNotes = w.uploadedNotes ∨
       (handleUploadNotesPress env w).uploadedNotes =
         (uploadLoop env.fetch 0 w.uploadedNotes).uploadedNotes ∨
       (handleUploadNotesPress env w).uploadedNotes =
         (uploadLoop env.fetch 0 w.uploadedNotes).finalNotes)) ∨
    ((handleUploadNotesPress env w).storage =
        some (Stored.notes (uploadLoop env.fetch 0 w.uploadedNotes).finalNotes) ∧
      (handleUploadNotesPress env w).uploadedNotes =
        (uploadLoop env.fetch 0 w.uploadedNotes).finalNotes) := by
  unfold handleUploadNotesPress
  cases env.userEmail with
  | none => simp
  | some email =>
    by_cases hp : (unuploadedNotes w.uploadedNotes).length = 0
    · simp [hp]
    · cases hc : env.commitOk with
      | false => simp [hp]
      | true =>
        simp only [hp, if_false, Bool.not_true, Bool.false_eq_true]
        rcases afterCommit_outcome env (uploadLoop env.fetch 0 w.uploadedNotes)
          { w with
            uploadedNotes := (uploadLoop env.fetch 0 w.uploadedNotes).uploadedNotes
            trace := w.trace ++ (uploadLoop env.fetch 0 w.uploadedNotes).posts ++
              [Effect.batchCommit (uploadLoop env.fetch 0 w.uploadedNotes).batch]
            uploadedNoteDocs :=
              applyBatch (uploadLoop env.fetch 0 w.uploadedNotes).batch w.uploadedNoteDocs }
          with ⟨h1, h2⟩ | ⟨h1, h2⟩
        · left
          refine ⟨h1, ?_⟩
          rcases h2 with h2 | h2
          · exact Or.inr (Or.inl h2)
          · exact Or.inr (Or.inr h2)
        · right
          exact ⟨h1, h2⟩

theorem getDoc_setDoc {α : Type} (id : String) (value : α) :
    ∀ docs : List (String × α), getDoc id (setDoc id value docs) = some value := by
  intro docs
  induction docs with
  | nil => simp [setDoc, getDoc]
  | cons kv rest ih =>
    obtain ⟨k, v⟩ := kv
    by_cases h : k = id
    · simp [setDoc, getDoc, h]
    · simp [setDoc, getDoc, h, ih]

/-- The cycle when every call after the image loop succeeds: the remaining
fields of the world. -/
theorem handleUploadNotesPress_all_ok_fields (env : Env) (w : World) (project : Project)
    (hUser : env.userEmail ≠ none) (hPending : (unuploadedNotes w.uploadedNotes).length ≠ 0)
    (hProject : w.project = some project) (hCommit : env.commitOk = true)
    (hGet : env.aggregateGetOk = true) (hWrite : env.aggregateWriteOk = true)
    (hFlag : env.projectUpdateOk = true) (hStore : env.storageSetOk = true) :
    (handleUploadNotesPress env w).uploadedNotes =
        (uploadLoop env.fetch 0 w.uploadedNotes).finalNotes ∧
    (handleUploadNotesPress env w).remoteProject =
        w.remoteProject.map (fun p => { p with isUploaded := true }) ∧
    (handleUploadNotesPress env w).contextUploadStatus = true ∧
    (handleUploadNotesPress env w).notesUploaded =
        setDoc project.projectName
          (some (aggregateWrite project.projectName
            (getDoc project.projectName w.notesUploaded)
            (uploadLoop env.fetch 0 w.uploadedNotes).unuploadedNotes).2) w.notesUploaded ∧
    (handleUploadNotesPress env w).trace =
        w.trace ++ (uploadLoop env.fetch 0 w.uploadedNotes).posts ++
          [Effect.batchCommit (uploadLoop env.fetch 0 w.uploadedNotes).batch,
           Effect.aggregateGet project.projectName,
           (aggregateWrite project.projectName (getDoc project.projectName w.notesUploaded)
              (uploadLoop env.fetch 0 w.uploadedNotes).unuploadedNotes).1,
           Effect.projectUpdate, Effect.updateProjectUploadStatus,
           Effect.setUploadedNotes (uploadLoop env.fetch 0 w.uploadedNotes).finalNotes,
           Effect.storageSet (uploadLoop env.fetch 0 w.uploadedNotes).finalNotes] := by
  unfold handleUploadNotesPress
  cases hu : env.userEmail with
  | none => exact absurd hu hUser
  | some email =>
    simp [hPending, hCommit, afterCommit, hProject, hGet, hWrite, hFlag, hStore,
      uploadLoop_allNotesUploaded]

/-! ## Further lemmas on the image loop -/

theorem uploadLoop_position (fetch : Nat → Bool → Nat → FormData → FetchResult) :
    ∀ (l : List Note) (k i : Nat) (m : Note), l[i]? = some m →
      ∃ m', (uploadLoop fetch k l).uploadedNotes[i]? = some m' ∧ m'.Serial = m.Serial ∧
        (m.isUploaded = some true → m'.isUploaded = some true) := by
  intro l
  induction l with
  | nil => intro k i m h; simp at h
  | cons head rest ih =>
    intro k i m hi
    cases i with
    | zero =>
      simp only [List.getElem?_cons_zero, Option.some.injEq] at hi
      subst hi
      cases hu : head.uploaded with
      | true =>
        rw [uploadLoop_cons_uploaded fetch k head rest hu]
        exact ⟨head, by simp [LoopResult.uploadedNotes], rfl, id⟩
      | false =>
        cases hh : (uploadNoteImages fetch k head).1 with
        | some head' =>
          rw [uploadLoop_cons_some fetch k head head' rest hu hh]
          obtain ⟨hs, hup, _⟩ := uploadNoteImages_some fetch k head head' hh
          exact ⟨head', by simp [LoopResult.uploadedNotes], hs, fun _ => hup⟩
        | none =>
          rw [uploadLoop_cons_none fetch k head rest hu hh]
          exact ⟨head, by simp [LoopResult.uploadedNotes], rfl, id⟩
    | succ j =>
      simp only [List.getElem?_cons_succ] at hi
      obtain ⟨m', h1, h2, h3⟩ := ih (k + 1) j m hi
      refine ⟨m', ?_, h2, h3⟩
      unfold LoopResult.uploadedNotes at h1 ⊢
      cases hu : head.uploaded with
      | true =>
        rw [uploadLoop_cons_uploaded fetch k head rest hu]
        simpa using h1
      | false =>
        cases hh : (uploadNoteImages fetch k head).1 with
        | some head' =>
          rw [uploadLoop_cons_some fetch k head head' rest hu hh]
          simpa using h1
        | none =>
          rw [uploadLoop_cons_none fetch k head rest hu hh]
          simpa using h1

theorem uploadLoop_length (fetch : Nat → Bool → Nat → FormData → FetchResult) :
    ∀ (l : List Note) (k : Nat), (uploadLoop fetch k l).uploadedNotes.length = l.length := by
  intro l
  induction l with
  | nil => intro k; rfl
  | cons head rest ih =>
    intro k
    have := ih (k + 1)
    unfold LoopResult.uploadedNotes at this ⊢
    cases hu : head.uploaded with
    | true =>
      rw [uploadLoop_cons_uploaded fetch k head rest hu]
      simpa using this
    | false =>
      cases hh : (uploadNoteImages fetch k head).1 with
      | some head' =>
        rw [uploadLoop_cons_some fetch k head head' rest hu hh]
        simpa using this
      | none =>
        rw [uploadLoop_cons_none fetch k head rest hu hh]
        simpa using this

theorem uploadLoop_serials (fetch : Nat → Bool → Nat → FormData → FetchResult)
    (l : List Note) (k : Nat) :
    (uploadLoop fetch k l).uploadedNotes.map Note.Serial = l.map Note.Serial := by
  apply List.ext_getElem?
  intro i
  rw [List.getElem?_map, List.getElem?_map]
  cases hi : l[i]? with
  | none =>
    have hlen : (uploadLoop fetch k l).uploadedNotes.length ≤ i := by
      rw [uploadLoop_length]
      exact List.getElem?_eq_none_iff.mp hi
    rw [List.getElem?_eq_none_iff.mpr hlen]
  | some m =>
    obtain ⟨m', h1, h2, _⟩ := uploadLoop_position fetch l k i m hi
    rw [h1]
    simp [h2]

theorem finalNotes_position (r : LoopResult) (i : Nat) (m : Note)
    (h : r.uploadedNotes[i]? = some m) :
    ∃ m', r.finalNotes[i]? = some m' ∧ m'.Serial = m.Serial ∧
      (m.isUploaded = some true → m'.isUploaded = some true) := by
  unfold LoopResult.finalNotes
  rw [List.getElem?_map, h]
  simp only [Option.map_some']
  refine ⟨_, rfl, ?_, ?_⟩
  · split <;> rfl
  · intro hm
    split
    · rfl
    · exact hm

theorem finalNotes_serials (r : LoopResult) :
    r.finalNotes.map Note.Serial = r.uploadedNotes.map Note.Serial := by
  unfold LoopResult.finalNotes
  rw [List.map_map]
  apply List.map_congr_left
  intro n _
  simp only [Function.comp]
  split <;> rfl

theorem uploadLoop_objects_mark (fetch : Nat → Bool → Nat → FormData → FetchResult) :
    ∀ (l : List Note) (k : Nat), ∀ o ∈ (uploadLoop fetch k l).objects,
      o.2.uploaded = true ∨ o.1 = true := by
  intro l k o ho
  have h := uploadLoop_allNotesUploaded fetch l k
  unfold LoopResult.allNotesUploaded at h
  rw [List.all_eq_true] at h
  have := h o ho
  simpa using this

theorem finalNotes_all_uploaded (fetch : Nat → Bool → Nat → FormData → FetchResult)
    (l : List Note) (k : Nat) :
    ∀ n ∈ (uploadLoop fetch k l).finalNotes, n.isUploaded = some true := by
  intro n hn
  unfold LoopResult.finalNotes LoopResult.uploadedNotes at hn
  simp only [List.mem_map] at hn
  obtain ⟨m, ⟨o, ho, rfl⟩, rfl⟩ := hn
  split
  · rfl
  · rename_i hany
    rcases uploadLoop_objects_mark fetch l k o ho with h | h
    · simpa [Note.uploaded] using h
    · exfalso
      apply hany
      rw [List.any_eq_true]
      refine ⟨o.2, mem_unuploadedNotes_of_mem_objects _ _ ?_, by simp⟩
      obtain ⟨b, note⟩ := o
      simp only at h
      subst h
      exact ho

theorem uploadLoop_unuploaded_length (fetch : Nat → Bool → Nat → FormData → FetchResult) :
    ∀ (l : List Note) (k : Nat),
      (uploadLoop fetch k l).unuploadedNotes.length = (unuploadedNotes l).length := by
  intro l
  induction l with
  | nil => intro k; rfl
  | cons head rest ih =>
    intro k
    have := ih (k + 1)
    unfold LoopResult.unuploadedNotes unuploadedNotes at this ⊢
    cases hu : head.uploaded with
    | true =>
      rw [uploadLoop_cons_uploaded fetch k head rest hu]
      simpa [hu] using this
    | false =>
      cases hh : (uploadNoteImages fetch k head).1 with
      | some head' =>
        rw [uploadLoop_cons_some fetch k head head' rest hu hh]
        simpa [hu] using this
      | none =>
        rw [uploadLoop_cons_none fetch k head rest hu hh]
        simpa [hu] using this

theorem promiseAll_ok_iff :
    ∀ l : List (Except String String), (∃ vs, promiseAll l = .ok vs) ↔ l.all succeeded = true := by
  intro l
  induction l with
  | nil => simp [promiseAll]
  | cons head rest ih =>
    cases head with
    | error e => simp [promiseAll, succeeded]
    | ok v =>
      simp only [promiseAll, List.all_cons, succeeded, Bool.true_and]
      rw [← ih]
      cases promiseAll rest with
      | error e => simp
      | ok vs => simp

theorem uploadNoteImages_isSome (fetch : Nat → Bool → Nat → FormData → FetchResult) (i : Nat)
    (note : Note) : (uploadNoteImages fetch i note).1.isSome = allUploadsOk fetch i note := by
  unfold uploadNoteImages allUploadsOk
  have hv := promiseAll_ok_iff (uploadEach (fetch i false) 0 note.images)
  have hh := promiseAll_ok_iff (uploadEach (fetch i true) 0 note.imagess)
  cases h1 : promiseAll (uploadEach (fetch i false) 0 note.images) with
  | error e =>
    rw [h1] at hv
    have : (uploadEach (fetch i false) 0 note.images).all succeeded = false := by
      cases hall : (uploadEach (fetch i false) 0 note.images).all succeeded with
      | false => rfl
      | true => simpa using hv.mpr hall
    simp [this]
  | ok vial =>
    rw [h1] at hv
    have hvt : (uploadEach (fetch i false) 0 note.images).all succeeded = true :=
      hv.mp ⟨vial, rfl⟩
    cases h2 : promiseAll (uploadEach (fetch i true) 0 note.imagess) with
    | error e =>
      rw [h2] at hh
      have : (uploadEach (fetch i true) 0 note.imagess).all succeeded = false := by
        cases hall : (uploadEach (fetch i true) 0 note.imagess).all succeeded with
        | false => rfl
        | true => simpa using hh.mpr hall
      simp [this]
    | ok habitat =>
      rw [h2] at hh
      have hht : (uploadEach (fetch i true) 0 note.imagess).all succeeded = true :=
        hh.mp ⟨habitat, rfl⟩
      simp [hvt, hht]

theorem uploadLoop_batch_ids (fetch : Nat → Bool → Nat → FormData → FetchResult) :
    ∀ (l : List Note) (k : Nat),
      (uploadLoop fetch k l).batch.map Prod.fst =
        (successfulPending fetch k l).map (fun p => p.2.Serial) := by
  intro l
  induction l with
  | nil => intro k; rfl
  | cons head rest ih =>
    intro k
    have hrest := ih (k + 1)
    unfold successfulPending at hrest ⊢
    rw [List.enumFrom_cons, List.filter_cons]
    cases hu : head.uploaded with
    | true =>
      rw [uploadLoop_cons_uploaded fetch k head rest hu]
      simpa [hu] using hrest
    | false =>
      have hsome := uploadNoteImages_isSome fetch k head
      cases hh : (uploadNoteImages fetch k head).1 with
      | some head' =>
        rw [uploadLoop_cons_some fetch k head head' rest hu hh]
        rw [hh] at hsome
        obtain ⟨hs, _⟩ := uploadNoteImages_some fetch k head head' hh
        simp [hu, ← hsome, hs, hrest]
      | none =>
        rw [uploadLoop_cons_none fetch k head rest hu hh]
        rw [hh] at hsome
        simp [hu, ← hsome, hrest]

theorem uploadNoteImages_posts (fetch : Nat → Bool → Nat → FormData → FetchResult) (i : Nat)
    (note note' : Note) (h : (uploadNoteImages fetch i note).1 = some note') :
    (uploadNoteImages fetch i note).2 = postsOf note.images ++ postsOf note.imagess := by
  unfold uploadNoteImages at h ⊢
  split
  · rename_i e h1
    rw [h1] at h
    simp at h
  · rename_i vial h1
    rw [h1] at h
    simp only at h
    split
    · rename_i e h2
      simp [h2] at h
    · rfl

theorem uploadLoop_all_succeed (fetch : Nat → Bool → Nat → FormData → FetchResult) :
    ∀ (l : List Note) (k : Nat),
      (∀ i note, l[i]? = some note → note.uploaded = false →
        ∃ note', (uploadNoteImages fetch (k + i) note).1 = some note') →
      (uploadLoop fetch k l).batch.length = (unuploadedNotes l).length ∧
      (uploadLoop fetch k l).posts =
        (unuploadedNotes l).flatMap (fun n => postsOf n.images ++ postsOf n.imagess) := by
  intro l
  induction l with
  | nil => intro k _; exact ⟨rfl, rfl⟩
  | cons head rest ih =>
    intro k h
    obtain ⟨h1, h2⟩ := ih (k + 1) (fun i note hi hp => by
      have := h (i + 1) note (by simpa using hi) hp
      rwa [show k + (i + 1) = k + 1 + i by omega] at this)
    unfold unuploadedNotes at h1 h2 ⊢
    cases hu : head.uploaded with
    | true =>
      rw [uploadLoop_cons_uploaded fetch k head rest hu]
      simp [hu, h1, h2]
    | false =>
      obtain ⟨head', hh⟩ := h 0 head (by simp) hu
      simp only [Nat.add_zero] at hh
      rw [uploadLoop_cons_some fetch k head head' rest hu hh,
        uploadNoteImages_posts fetch k head head' hh]
      simp [hu, h1, h2]

theorem uploadNoteImages_posts_start (fetch : Nat → Bool → Nat → FormData → FetchResult)
    (i : Nat) (note : Note) :
    ∃ rest, (uploadNoteImages fetch i note).2 = postsOf note.images ++ rest := by
  unfold uploadNoteImages
  split
  · exact ⟨[], by simp⟩
  · split
    · exact ⟨_, rfl⟩
    · exact ⟨_, rfl⟩

theorem uploadLoop_posts_start (fetch : Nat → Bool → Nat → FormData → FetchResult) :
    ∀ (l : List Note) (k : Nat) (note : Note) (tail : List Note),
      unuploadedNotes l = note :: tail →
      ∃ rest, (uploadLoop fetch k l).posts = postsOf note.images ++ rest := by
  intro l
  induction l with
  | nil => intro k note tail h; simp [unuploadedNotes] at h
  | cons head others ih =>
    intro k note tail h
    cases hu : head.uploaded with
    | true =>
      rw [uploadLoop_cons_uploaded fetch k head others hu]
      have h' : unuploadedNotes others = note :: tail := by
        simpa [unuploadedNotes, hu] using h
      exact ih (k + 1) note tail h'
    | false =>
      have hhead : head = note := by
        have : head :: unuploadedNotes others = note :: tail := by
          simpa [unuploadedNotes, hu] using h
        exact (List.cons.inj this).1
      subst hhead
      obtain ⟨rest, hrest⟩ := uploadNoteImages_posts_start fetch k head
      cases hh : (uploadNoteImages fetch k head).1 with
      | some head' =>
        rw [uploadLoop_cons_some fetch k head head' others hu hh, hrest]
        exact ⟨_, List.append_assoc _ _ _⟩
      | none =>
        rw [uploadLoop_cons_none fetch k head others hu hh, hrest]
        exact ⟨_, List.append_assoc _ _ _⟩

/-- The statements before the first `await` are the start of the cycle: the
calls of `startUpload` are an initial segment of the calls of the whole
cycle. -/
theorem startUpload_trace_start (env : Env) (w : World) (n : Nat) :
    ∃ rest, (handleUploadNotesPress env w).trace =
      (startUpload env { world := w, inFlight := n }).world.trace ++ rest := by
  unfold handleUploadNotesPress startUpload
  cases env.userEmail with
  | none => exact ⟨[], by simp⟩
  | some email =>
    cases hp : unuploadedNotes w.uploadedNotes with
    | nil => exact ⟨[], by simp⟩
    | cons note tail =>
      obtain ⟨rest, hrest⟩ := uploadLoop_posts_start env.fetch w.uploadedNotes 0 note tail hp
      simp only [List.length_cons, Nat.add_one_ne_zero, if_false]
      cases env.commitOk with
      | false =>
        simp only [Bool.not_false, if_true, hrest]
        exact ⟨_, by simp [List.append_assoc]; rfl⟩
      | true =>
        simp only [Bool.not_true, Bool.false_eq_true, if_false]
        obtain ⟨extra, hextra, _⟩ := afterCommit_trace env
          (uploadLoop env.fetch 0 w.uploadedNotes)
          { w with
            uploadedNotes := (uploadLoop env.fetch 0 w.uploadedNotes).uploadedNotes
            trace := w.trace ++ (uploadLoop env.fetch 0 w.uploadedNotes).posts ++
              [Effect.batchCommit (uploadLoop env.fetch 0 w.uploadedNotes).batch]
            uploadedNoteDocs :=
              applyBatch (uploadLoop env.fetch 0 w.uploadedNotes).batch w.uploadedNoteDocs }
        rw [hextra, hrest]
        exact ⟨_, by simp [List.append_assoc]; rfl⟩

theorem uploadLoop_batch_origin (fetch : Nat → Bool → Nat → FormData → FetchResult) :
    ∀ (l : List Note) (k : Nat), ∀ kv ∈ (uploadLoop fetch k l).batch,
      ∃ i note, l[i]? = some note ∧ note.uploaded = false ∧
        (uploadNoteImages fetch (k + i) note).1 = some kv.2 ∧ kv.1 = note.Serial := by
  intro l
  induction l with
  | nil => intro k kv h; simp [uploadLoop] at h
  | cons head rest ih =>
    intro k kv h
    have lift : (∃ i note, rest[i]? = some note ∧ note.uploaded = false ∧
        (uploadNoteImages fetch (k + 1 + i) note).1 = some kv.2 ∧ kv.1 = note.Serial) →
        ∃ i note, (head :: rest)[i]? = some note ∧ note.uploaded = false ∧
          (uploadNoteImages fetch (k + i) note).1 = some kv.2 ∧ kv.1 = note.Serial := by
      rintro ⟨i, note, h1, h2, h3, h4⟩
      refine ⟨i + 1, note, by simpa using h1, h2, ?_, h4⟩
      rwa [show k + (i + 1) = k + 1 + i by omega]
    cases hu : head.uploaded with
    | true =>
      rw [uploadLoop_cons_uploaded fetch k head rest hu] at h
      exact lift (ih (k + 1) kv h)
    | false =>
      cases hh : (uploadNoteImages fetch k head).1 with
      | some head' =>
        rw [uploadLoop_cons_some fetch k head head' rest hu hh] at h
        rcases List.mem_cons.mp h with h | h
        · subst h
          obtain ⟨hs, _⟩ := uploadNoteImages_some fetch k head head' hh
          exact ⟨0, head, by simp, hu, by simpa using hh, hs⟩
        · exact lift (ih (k + 1) kv h)
      | none =>
        rw [uploadLoop_cons_none fetch k head rest hu hh] at h
        exact lift (ih (k + 1) kv h)

theorem handleUploadNotesPress_noop (env : Env) (w : World)
    (h : (unuploadedNotes w.uploadedNotes).length = 0) : handleUploadNotesPress env w = w := by
  unfold handleUploadNotesPress
  cases env.userEmail <;> simp [h]

theorem unuploadedNotes_eq_nil_of_all_uploaded (l : List Note)
    (h : ∀ n ∈ l, n.isUploaded = some true) : unuploadedNotes l = [] := by
  unfold unuploadedNotes
  rw [List.filter_eq_nil_iff]
  intro n hn
  simp [Note.uploaded, h n hn]

theorem all_uploaded_of_unuploadedNotes_eq_nil (l : List Note)
    (h : (unuploadedNotes l).length = 0) : ∀ n ∈ l, n.isUploaded = some true := by
  intro n hn
  rw [List.length_eq_zero] at h
  unfold unuploadedNotes at h
  rw [List.filter_eq_nil_iff] at h
  have := h n hn
  simpa [Note.uploaded] using this

theorem map_normalizeNote_of_all_uploaded (l : List Note)
    (h : ∀ n ∈ l, n.isUploaded = some true) : l.map normalizeNote = l := by
  conv => rhs; rw [← List.map_id l]
  apply List.map_congr_left
  intro n hn
  have := h n hn
  cases n
  simp_all [normalizeNote, Note.uploaded]

theorem aggregateWrite_notes (projectName : String) (docs : List (String × Option (List Note)))
    (unuploaded : List Note) :
    (aggregateWrite projectName (getDoc projectName docs) unuploaded).2 =
      aggregateNotes projectName docs ++ unuploaded := by
  unfold aggregateWrite aggregateNotes
  rcases getDoc projectName docs with _ | _ | l <;> simp

/-! ## The claims on repeated cycles, the batch and the expiry scenario -/

/-- C11: after a cycle that runs to completion (every call after the image loop
succeeds), the in-memory list is the list the cycle saved when it had a
pending note, reloading it gives the same list, no note of it is pending, and
a second cycle started from that list returns the world unchanged: no image
upload and no write. -/
theorem second_cycle_does_nothing (env : Env) (w : World) (project : Project)
    (hUser : env.userEmail ≠ none) (hProject : w.project = some project)
    (hCommit : env.commitOk = true) (hGet : env.aggregateGetOk = true)
    (hWrite : env.aggregateWriteOk = true) (hFlag : env.projectUpdateOk = true)
    (hStore : env.storageSetOk = true) :
    ((unuploadedNotes w.uploadedNotes).length ≠ 0 →
      (handleUploadNotesPress env w).storage =
        some (Stored.notes (handleUploadNotesPress env w).uploadedNotes)) ∧
    (handleUploadNotesPress env w).uploadedNotes.map normalizeNote =
      (handleUploadNotesPress env w).uploadedNotes ∧
    unuploadedNotes (handleUploadNotesPress env w).uploadedNotes = [] ∧
    ∀ (env2 : Env) (w2 : World),
      w2.uploadedNotes = (handleUploadNotesPress env w).uploadedNotes →
      handleUploadNotesPress env2 w2 = w2 := by
  have hall : ∀ n ∈ (handleUploadNotesPress env w).uploadedNotes, n.isUploaded = some true := by
    by_cases hp : (unuploadedNotes w.uploadedNotes).length = 0
    · rw [handleUploadNotesPress_noop env w hp]
      exact all_uploaded_of_unuploadedNotes_eq_nil _ hp
    · obtain ⟨hmem, _⟩ := handleUploadNotesPress_all_ok_fields env w project hUser hp hProject
        hCommit hGet hWrite hFlag hStore
      rw [hmem]
      exact finalNotes_all_uploaded env.fetch w.uploadedNotes 0
  refine ⟨?_, map_normalizeNote_of_all_uploaded _ hall,
    unuploadedNotes_eq_nil_of_all_uploaded _ hall, ?_⟩
  · intro hp
    obtain ⟨hmem, _⟩ := handleUploadNotesPress_all_ok_fields env w project hUser hp hProject
      hCommit hGet hWrite hFlag hStore
    obtain ⟨hst, _⟩ := handleUploadNotesPress_all_ok env w project hUser hp hProject
      hCommit hGet hWrite hFlag hStore
    rw [hst, hmem]
  · intro env2 w2 h2
    apply handleUploadNotesPress_noop
    rw [h2, unuploadedNotes_eq_nil_of_all_uploaded _ hall]
    rfl

/-- Witness of C11: the cycle on "Lake Survey" in which the upload of note 2
fails, followed by a second cycle. -/
theorem second_cycle_does_nothing_witness :
    ((unuploadedNotes lakeSurvey.uploadedNotes).length ≠ 0 →
      (handleUploadNotesPress envNote2Fails lakeSurvey).storage =
        some (Stored.notes (handleUploadNotesPress envNote2Fails lakeSurvey).uploadedNotes)) ∧
    (handleUploadNotesPress envNote2Fails lakeSurvey).uploadedNotes.map normalizeNote =
      (handleUploadNotesPress envNote2Fails lakeSurvey).uploadedNotes ∧
    unuploadedNotes (handleUploadNotesPress envNote2Fails lakeSurvey).uploadedNotes = [] ∧
    ∀ (env2 : Env) (w2 : World),
      w2.uploadedNotes = (handleUploadNotesPress envNote2Fails lakeSurvey).uploadedNotes →
      handleUploadNotesPress env2 w2 = w2 :=
  second_cycle_does_nothing envNote2Fails lakeSurvey { projectName := "Lake Survey" }
    (by decide) rfl rfl rfl rfl rfl rfl

/-! ## Sequences of loads and cycles -/

theorem cycle_step (env : Env) (w : World) (hInv : memoryCoversStore w) :
    memoryCoversStore (handleUploadNotesPress env w) ∧
    ∀ (i : Nat) (s : Note), (storedNotes w)[i]? = some s → s.isUploaded = some true →
      ∃ s' : Note, (storedNotes (handleUploadNotesPress env w))[i]? = some s' ∧
        s'.Serial = s.Serial ∧ s'.isUploaded = some true := by
  have hloop : ∀ (i : Nat) (s : Note), (storedNotes w)[i]? = some s →
      s.isUploaded = some true →
      ∃ m : Note, (uploadLoop env.fetch 0 w.uploadedNotes).uploadedNotes[i]? = some m ∧
        m.Serial = s.Serial ∧ m.isUploaded = some true := by
    intro i s hs hup
    obtain ⟨m, hm, hms, hmu⟩ := hInv i s hs hup
    obtain ⟨m', h1, h2, h3⟩ := uploadLoop_position env.fetch w.uploadedNotes 0 i m hm
    exact ⟨m', h1, h2.trans hms, h3 hmu⟩
  have hfinal : ∀ (i : Nat) (s : Note), (storedNotes w)[i]? = some s →
      s.isUploaded = some true →
      ∃ m : Note, (uploadLoop env.fetch 0 w.uploadedNotes).finalNotes[i]? = some m ∧
        m.Serial = s.Serial ∧ m.isUploaded = some true := by
    intro i s hs hup
    obtain ⟨m, hm, hms, hmu⟩ := hloop i s hs hup
    obtain ⟨m', h1, h2, h3⟩ := finalNotes_position _ i m hm
    exact ⟨m', h1, h2.trans hms, h3 hmu⟩
  rcases handleUploadNotesPress_outcome env w with ⟨hst, hmem⟩ | ⟨hst, hmem⟩
  · have hsn : storedNotes (handleUploadNotesPress env w) = storedNotes w := by
      unfold storedNotes
      rw [hst]
    refine ⟨?_, ?_⟩
    · intro i s hs hup
      rw [hsn] at hs
      rcases hmem with h | h | h
      · rw [h]
        exact hInv i s hs hup
      · rw [h]
        exact hloop i s hs hup
      · rw [h]
        exact hfinal i s hs hup
    · intro i s hs hup
      rw [hsn]
      exact ⟨s, hs, rfl, hup⟩
  · have hsn : storedNotes (handleUploadNotesPress env w) =
        (uploadLoop env.fetch 0 w.uploadedNotes).finalNotes := by
      unfold storedNotes
      rw [hst]
    refine ⟨?_, ?_⟩
    · intro i s hs hup
      rw [hsn] at hs
      rw [hmem]
      exact ⟨s, hs, rfl, hup⟩
    · intro i s hs hup
      rw [hsn]
      exact hfinal i s hs hup

theorem loadProjectDetails_outcome (env : Env) (w : World) :
    (loadProjectDetails env w).storage = w.storage ∧
    ((loadProjectDetails env w).uploadedNotes = w.uploadedNotes ∨
     (loadProjectDetails env w).uploadedNotes = (storedNotes w).map normalizeNote) := by
  unfold loadProjectDetails storedNotes
  cases env.userEmail with
  | none => simp
  | some email =>
    cases env.projectGetOk with
    | false => simp
    | true =>
      cases env.storageGetOk with
      | false => cases w.remoteProject <;> simp
      | true =>
        cases hs : w.storage with
        | none => cases w.remoteProject <;> simp [hs]
        | some stored =>
          cases stored with
          | corrupt => cases w.remoteProject <;> simp [hs]
          | notes l => cases w.remoteProject <;> simp [hs]

theorem load_step (env : Env) (w : World) (hInv : memoryCoversStore w) :
    memoryCoversStore (loadProjectDetails env w) ∧
    ∀ (i : Nat) (s : Note), (storedNotes w)[i]? = some s → s.isUploaded = some true →
      ∃ s' : Note, (storedNotes (loadProjectDetails env w))[i]? = some s' ∧
        s'.Serial = s.Serial ∧ s'.isUploaded = some true := by
  obtain ⟨hst, hmem⟩ := loadProjectDetails_outcome env w
  have hsn : storedNotes (loadProjectDetails env w) = storedNotes w := by
    unfold storedNotes
    rw [hst]
  refine ⟨?_, ?_⟩
  · intro i s hs hup
    rw [hsn] at hs
    rcases hmem with h | h
    · rw [h]
      exact hInv i s hs hup
    · rw [h]
      refine ⟨normalizeNote s, by simp [hs], rfl, ?_⟩
      simp [normalizeNote, Note.uploaded, hup]
  · intro i s hs hup
    rw [hsn]
    exact ⟨s, hs, rfl, hup⟩

theorem runSteps_keeps_uploaded :
    ∀ (steps : List Step) (w : World), memoryCoversStore w →
      ∀ (i : Nat) (s : Note), (storedNotes w)[i]? = some s → s.isUploaded = some true →
        ∃ s' : Note, (storedNotes (runSteps steps w))[i]? = some s' ∧
          s'.Serial = s.Serial ∧ s'.isUploaded = some true := by
  intro steps
  induction steps with
  | nil => intro w _ i s hs hup; exact ⟨s, hs, rfl, hup⟩
  | cons step rest ih =>
    intro w hInv i s hs hup
    have hstep : memoryCoversStore (step.apply w) ∧
        ∀ (i : Nat) (s : Note), (storedNotes w)[i]? = some s → s.isUploaded = some true →
          ∃ s' : Note, (storedNotes (step.apply w))[i]? = some s' ∧
            s'.Serial = s.Serial ∧ s'.isUploaded = some true := by
      cases step with
      | load env => exact load_step env w hInv
      | cycle env => exact cycle_step env w hInv
    obtain ⟨s1, h1, h2, h3⟩ := hstep.2 i s hs hup
    obtain ⟨s2, h4, h5, h6⟩ := ih (step.apply w) hstep.1 i s1 h1 h3
    exact ⟨s2, h4, h5.trans h2, h6⟩

/-- C12 (counterexample): on "Lake Survey" the cycle whose batch commit rejects
leaves note 1 with `isUploaded = true` in the in-memory list, and the load that
follows puts it back to `isUploaded = false`. -/
theorem provisional_flag_reset_by_load :
    (runSteps [Step.cycle envCommitFails] lakeSurvey).uploadedNotes[0]? = some note1Uploaded ∧
    note1Uploaded.isUploaded = some true ∧
    (runSteps [Step.cycle envCommitFails, Step.load envAllOk] lakeSurvey).uploadedNotes[0]? =
      some note1 ∧
    note1.isUploaded = some false := by
  decide

/-- C12 (amended): the normalisation of `loadProjectDetails` keeps a true flag
true; the list a cycle builds to save has `isUploaded = true` at every position
where the list it started from had it; and across every sequence of loads and
cycles, started in a state whose in-memory list agrees with the device store on
the uploaded notes, a note that is uploaded in the device store stays in it, at
its position and with its `Serial`, with `isUploaded = true`. -/
theorem stored_flag_stays_true (steps : List Step) (w : World) (i : Nat) (s : Note)
    (hInv : memoryCoversStore w) (hs : (storedNotes w)[i]? = some s)
    (hup : s.isUploaded = some true) :
    (normalizeNote s).isUploaded = some true ∧
    (∀ (env : Env) (j : Nat) (m : Note), w.uploadedNotes[j]? = some m →
      m.isUploaded = some true →
      ∃ m' : Note, (uploadLoop env.fetch 0 w.uploadedNotes).finalNotes[j]? = some m' ∧
        m'.Serial = m.Serial ∧ m'.isUploaded = some true) ∧
    ∃ s' : Note, (storedNotes (runSteps steps w))[i]? = some s' ∧
      s'.Serial = s.Serial ∧ s'.isUploaded = some true := by
  refine ⟨by simp [normalizeNote, Note.uploaded, hup], ?_,
    runSteps_keeps_uploaded steps w hInv i s hs hup⟩
  intro env j m hm hmu
  obtain ⟨m1, h1, h2, h3⟩ := uploadLoop_position env.fetch w.uploadedNotes 0 j m hm
  obtain ⟨m2, h4, h5, h6⟩ := finalNotes_position _ j m1 h1
  exact ⟨m2, h4, h5.trans h2, h6 (h3 hmu)⟩

/-- Witness of C12 (amended): note A of the project with the notes A (uploaded)
and B, across a cycle whose commit rejects, a load, and a cycle in which the
upload of B fails. -/
theorem stored_flag_stays_true_witness :
    (normalizeNote noteA).isUploaded = some true ∧
    (∀ (env : Env) (j : Nat) (m : Note), projectAB.uploadedNotes[j]? = some m →
      m.isUploaded = some true →
      ∃ m' : Note, (uploadLoop env.fetch 0 projectAB.uploadedNotes).finalNotes[j]? = some m' ∧
        m'.Serial = m.Serial ∧ m'.isUploaded = some true) ∧
    ∃ s' : Note,
      (storedNotes (runSteps [Step.cycle envCommitFails, Step.load envAllOk,
        Step.cycle envNote2Fails] projectAB))[0]? = some s' ∧
      s'.Serial = noteA.Serial ∧ s'.isUploaded = some true :=
  stored_flag_stays_true [Step.cycle envCommitFails, Step.load envAllOk,
      Step.cycle envNote2Fails] projectAB 0 noteA
    (by
      intro i s hs hup
      have hstore : storedNotes projectAB = [noteA, noteB] := rfl
      rw [hstore] at hs
      exact ⟨s, hs, rfl, hup⟩)
    rfl rfl

/-- C13: in a cycle with a signed-in user and a pending note, the document ids
of the batch are, in order, the `Serial`s of the pending notes whose image
uploads all succeed (one write for each such note and none for another), each
write carries the note built from the note at its position, and the calls the
cycle issues contain exactly one commit, the commit of that batch. -/
theorem batch_holds_successful_pending_notes (env : Env) (w : World)
    (hUser : env.userEmail ≠ none)
    (hPending : (unuploadedNotes w.uploadedNotes).length ≠ 0) :
    (uploadLoop env.fetch 0 w.uploadedNotes).batch.map Prod.fst =
      (successfulPending env.fetch 0 w.uploadedNotes).map (fun p => p.2.Serial) ∧
    (∀ kv ∈ (uploadLoop env.fetch 0 w.uploadedNotes).batch,
      ∃ i note, w.uploadedNotes[i]? = some note ∧ note.uploaded = false ∧
        allUploadsOk env.fetch i note = true ∧
        (uploadNoteImages env.fetch i note).1 = some kv.2 ∧ kv.1 = note.Serial) ∧
    ∃ issued, (handleUploadNotesPress env w).trace = w.trace ++ issued ∧
      issued.filter Effect.isBatchCommit =
        [Effect.batchCommit (uploadLoop env.fetch 0 w.uploadedNotes).batch] := by
  refine ⟨uploadLoop_batch_ids env.fetch w.uploadedNotes 0, ?_, ?_⟩
  · intro kv hkv
    obtain ⟨i, note, h1, h2, h3, h4⟩ :=
      uploadLoop_batch_origin env.fetch w.uploadedNotes 0 kv hkv
    simp only [Nat.zero_add] at h3
    refine ⟨i, note, h1, h2, ?_, h3, h4⟩
    rw [← uploadNoteImages_isSome, h3]
    rfl
  · have hposts : (uploadLoop env.fetch 0 w.uploadedNotes).posts.filter Effect.isBatchCommit
        = [] := by
      rw [List.filter_eq_nil_iff]
      intro e he
      have := uploadLoop_posts_isPost env.fetch w.uploadedNotes 0 e he
      cases e <;> simp_all [Effect.isPost, Effect.isBatchCommit]
    unfold handleUploadNotesPress
    cases hu : env.userEmail with
    | none => exact absurd hu hUser
    | some email =>
      simp only [hPending, if_false]
      cases env.commitOk with
      | false =>
        refine ⟨(uploadLoop env.fetch 0 w.uploadedNotes).posts ++
          [Effect.batchCommit (uploadLoop env.fetch 0 w.uploadedNotes).batch], by simp, ?_⟩
        rw [List.filter_append, hposts]
        rfl
      | true =>
        simp only [Bool.not_true, Bool.false_eq_true, if_false]
        obtain ⟨extra, hextra, hno⟩ := afterCommit_trace env
          (uploadLoop env.fetch 0 w.uploadedNotes)
          { w with
            uploadedNotes := (uploadLoop env.fetch 0 w.uploadedNotes).uploadedNotes
            trace := w.trace ++ (uploadLoop env.fetch 0 w.uploadedNotes).posts ++
              [Effect.batchCommit (uploadLoop env.fetch 0 w.uploadedNotes).batch]
            uploadedNoteDocs :=
              applyBatch (uploadLoop env.fetch 0 w.uploadedNotes).batch w.uploadedNoteDocs }
        have hextra0 : extra.filter Effect.isBatchCommit = [] := by
          rw [List.filter_eq_nil_iff]
          intro e he
          simp [(hno e he).1]
        refine ⟨(uploadLoop env.fetch 0 w.uploadedNotes).posts ++
          [Effect.batchCommit (uploadLoop env.fetch 0 w.uploadedNotes).batch] ++ extra, ?_, ?_⟩
        · rw [hextra]
          simp [List.append_assoc]
        · rw [List.filter_append, List.filter_append, hposts, hextra0]
          rfl

/-- Witness of C13: the cycle on "Lake Survey" in which the upload of note 2
fails; the batch holds the documents "1" and "3". -/
theorem batch_holds_successful_pending_notes_witness :
    (uploadLoop envNote2Fails.fetch 0 lakeSurvey.uploadedNotes).batch.map Prod.fst =
      (successfulPending envNote2Fails.fetch 0 lakeSurvey.uploadedNotes).map
        (fun p => p.2.Serial) ∧
    (∀ kv ∈ (uploadLoop envNote2Fails.fetch 0 lakeSurvey.uploadedNotes).batch,
      ∃ i note, lakeSurvey.uploadedNotes[i]? = some note ∧ note.uploaded = false ∧
        allUploadsOk envNote2Fails.fetch i note = true ∧
        (uploadNoteImages envNote2Fails.fetch i note).1 = some kv.2 ∧ kv.1 = note.Serial) ∧
    ∃ issued, (handleUploadNotesPress envNote2Fails lakeSurvey).trace =
        lakeSurvey.trace ++ issued ∧
      issued.filter Effect.isBatchCommit =
        [Effect.batchCommit (uploadLoop envNote2Fails.fetch 0 lakeSurvey.uploadedNotes).batch] :=
  batch_holds_successful_pending_notes envNote2Fails lakeSurvey (by decide) (by decide)

/-- C14: a cycle keeps the `Serial`s: the in-memory list after it has the
`Serial`s of the list it started from, position by position; when the cycle
runs to its end, the list it saves has them too (so it has the same length);
and each write of the batch carries the `Serial` of the pending note it was
built from, which is also its document id. -/
theorem cycle_keeps_serials (env : Env) (w : World) (project : Project)
    (hUser : env.userEmail ≠ none)
    (hPending : (unuploadedNotes w.uploadedNotes).length ≠ 0)
    (hProject : w.project = some project) (hCommit : env.commitOk = true)
    (hGet : env.aggregateGetOk = true) (hWrite : env.aggregateWriteOk = true)
    (hFlag : env.projectUpdateOk = true) (hStore : env.storageSetOk = true) :
    (∃ saved, (handleUploadNotesPress env w).storage = some (Stored.notes saved) ∧
      saved.map Note.Serial = w.uploadedNotes.map Note.Serial ∧
      saved.length = w.uploadedNotes.length) ∧
    (handleUploadNotesPress env w).uploadedNotes.map Note.Serial =
      w.uploadedNotes.map Note.Serial ∧
    ∀ kv ∈ (uploadLoop env.fetch 0 w.uploadedNotes).batch,
      ∃ i note, w.uploadedNotes[i]? = some note ∧
        (uploadNoteImages env.fetch i note).1 = some kv.2 ∧
        kv.2.Serial = note.Serial ∧ kv.1 = note.Serial := by
  obtain ⟨hst, _⟩ := handleUploadNotesPress_all_ok env w project hUser hPending hProject
    hCommit hGet hWrite hFlag hStore
  obtain ⟨hmem, _⟩ := handleUploadNotesPress_all_ok_fields env w project hUser hPending
    hProject hCommit hGet hWrite hFlag hStore
  have hser : (uploadLoop env.fetch 0 w.uploadedNotes).finalNotes.map Note.Serial =
      w.uploadedNotes.map Note.Serial := by
    rw [finalNotes_serials, uploadLoop_serials]
  refine ⟨⟨_, hst, hser, ?_⟩, by rw [hmem]; exact hser, ?_⟩
  · have := congrArg List.length hser
    simpa using this
  · intro kv hkv
    obtain ⟨i, note, h1, _, h3, h4⟩ :=
      uploadLoop_batch_origin env.fetch w.uploadedNotes 0 kv hkv
    simp only [Nat.zero_add] at h3
    obtain ⟨hs, _⟩ := uploadNoteImages_some env.fetch i note kv.2 h3
    exact ⟨i, note, h1, h3, hs, h4⟩

/-- Witness of C14: the cycle on "Lake Survey" in which the upload of note 2
fails. -/
theorem cycle_keeps_serials_witness :
    (∃ saved, (handleUploadNotesPress envNote2Fails lakeSurvey).storage =
        some (Stored.notes saved) ∧
      saved.map Note.Serial = lakeSurvey.uploadedNotes.map Note.Serial ∧
      saved.length = lakeSurvey.uploadedNotes.length) ∧
    (handleUploadNotesPress envNote2Fails lakeSurvey).uploadedNotes.map Note.Serial =
      lakeSurvey.uploadedNotes.map Note.Serial ∧
    ∀ kv ∈ (uploadLoop envNote2Fails.fetch 0 lakeSurvey.uploadedNotes).batch,
      ∃ i note, lakeSurvey.uploadedNotes[i]? = some note ∧
        (uploadNoteImages envNote2Fails.fetch i note).1 = some kv.2 ∧
        kv.2.Serial = note.Serial ∧ kv.1 = note.Serial :=
  cycle_keeps_serials envNote2Fails lakeSurvey { projectName := "Lake Survey" }
    (by decide) (by decide) rfl rfl rfl rfl rfl rfl

/-- C15: for a loaded project whose end date is before the current instant and
which is not marked uploaded, with at least one pending note, every image
upload of every pending note succeeding and every remote and store call
succeeding, the expiry check runs the cycle; with `k` the number of pending
notes, the cycle posts every image of the pending notes and issues one commit,
the batch holds `k` writes and is applied to the ledger, the Project is marked
uploaded remotely and locally, the saved list has every note uploaded, and the
aggregate list of the project name gains `k` entries. -/
theorem expiry_check_uploads_all (env : Env) (w : World) (project : Project)
    (projectEndDate : Int)
    (hProject : w.project = some project) (hDate : project.toDate = some projectEndDate)
    (hPast : projectEndDate < env.now) (hNotUploaded : project.isUploaded = false)
    (hUser : env.userEmail ≠ none)
    (hPending : (unuploadedNotes w.uploadedNotes).length ≠ 0)
    (hCommit : env.commitOk = true) (hGet : env.aggregateGetOk = true)
    (hWrite : env.aggregateWriteOk = true) (hFlag : env.projectUpdateOk = true)
    (hStore : env.storageSetOk = true)
    (hUploads : ∀ i note, w.uploadedNotes[i]? = some note → note.uploaded = false →
      (∀ j image, note.images[j]? = some image →
        ∃ url, uploadToCloudinary (env.fetch i false j) image = .ok url) ∧
      (∀ j image, note.imagess[j]? = some image →
        ∃ url, uploadToCloudinary (env.fetch i true j) image = .ok url)) :
    checkAndUploadNotes env w = (true, handleUploadNotesPress env w) ∧
    (∃ rest, (handleUploadNotesPress env w).trace =
      w.trace ++
        (unuploadedNotes w.uploadedNotes).flatMap
          (fun n => postsOf n.images ++ postsOf n.imagess) ++
        Effect.batchCommit (uploadLoop env.fetch 0 w.uploadedNotes).batch :: rest ∧
      rest.filter Effect.isBatchCommit = [] ∧ rest.filter Effect.isPost = []) ∧
    (uploadLoop env.fetch 0 w.uploadedNotes).batch.length =
      (unuploadedNotes w.uploadedNotes).length ∧
    (handleUploadNotesPress env w).uploadedNoteDocs =
      applyBatch (uploadLoop env.fetch 0 w.uploadedNotes).batch w.uploadedNoteDocs ∧
    (handleUploadNotesPress env w).remoteProject =
      w.remoteProject.map (fun p => { p with isUploaded := true }) ∧
    (handleUploadNotesPress env w).contextUploadStatus = true ∧
    (∃ saved, (handleUploadNotesPress env w).storage = some (Stored.notes saved) ∧
      saved.length = w.uploadedNotes.length ∧ ∀ n ∈ saved, n.isUploaded = some true) ∧
    ∃ added, added.length = (unuploadedNotes w.uploadedNotes).length ∧
      aggregateNotes project.projectName (handleUploadNotesPress env w).notesUploaded =
        aggregateNotes project.projectName w.notesUploaded ++ added := by
  obtain ⟨hst, hdocs, _⟩ := handleUploadNotesPress_all_ok env w project hUser hPending
    hProject hCommit hGet hWrite hFlag hStore
  obtain ⟨_, hremote, hctx, hagg, htrace⟩ := handleUploadNotesPress_all_ok_fields env w
    project hUser hPending hProject hCommit hGet hWrite hFlag hStore
  obtain ⟨hlen, hposts⟩ := uploadLoop_all_succeed env.fetch w.uploadedNotes 0
    (fun i note hi hp => by
      obtain ⟨hv, hh⟩ := hUploads i note hi hp
      simpa using uploadNoteImages_ok env.fetch i note hv hh)
  have hw := aggregateWrite_effect project.projectName
    (getDoc project.projectName w.notesUploaded)
    (uploadLoop env.fetch 0 w.uploadedNotes).unuploadedNotes
  refine ⟨?_, ?_, hlen, hdocs, hremote, hctx, ⟨_, hst, ?_, ?_⟩, ?_⟩
  · unfold checkAndUploadNotes
    simp [hProject, hDate, hPast, hNotUploaded]
  · rw [htrace, hposts]
    refine ⟨[Effect.aggregateGet project.projectName,
      (aggregateWrite project.projectName (getDoc project.projectName w.notesUploaded)
        (uploadLoop env.fetch 0 w.uploadedNotes).unuploadedNotes).1,
      Effect.projectUpdate, Effect.updateProjectUploadStatus,
      Effect.setUploadedNotes (uploadLoop env.fetch 0 w.uploadedNotes).finalNotes,
      Effect.storageSet (uploadLoop env.fetch 0 w.uploadedNotes).finalNotes], by simp, ?_, ?_⟩
    · rw [List.filter_eq_nil_iff]
      intro e he
      simp only [List.mem_cons, List.not_mem_nil, or_false] at he
      rcases he with rfl | rfl | rfl | rfl | rfl | rfl
      all_goals first | exact Bool.false_ne_true | (rw [hw.1]; exact Bool.false_ne_true)
    · rw [List.filter_eq_nil_iff]
      intro e he
      simp only [List.mem_cons, List.not_mem_nil, or_false] at he
      rcases he with rfl | rfl | rfl | rfl | rfl | rfl
      all_goals first | exact Bool.false_ne_true | (rw [hw.2]; exact Bool.false_ne_true)
  · have := congrArg List.length
      ((finalNotes_serials (uploadLoop env.fetch 0 w.uploadedNotes)).trans
        (uploadLoop_serials env.fetch w.uploadedNotes 0))
    simpa using this
  · exact finalNotes_all_uploaded env.fetch w.uploadedNotes 0
  · refine ⟨(uploadLoop env.fetch 0 w.uploadedNotes).unuploadedNotes,
      uploadLoop_unuploaded_length env.fetch w.uploadedNotes 0, ?_⟩
    rw [hagg]
    unfold aggregateNotes
    rw [getDoc_setDoc]
    simp only
    rw [aggregateWrite_notes]
    rfl

/-- Witness of C15: "Lake Survey", end date in the past, two local-only notes
with one image each, every call succeeding. -/
theorem expiry_check_uploads_all_witness :
    checkAndUploadNotes envLater lakeSurveyExpired =
      (true, handleUploadNotesPress envLater lakeSurveyExpired) ∧
    (∃ rest, (handleUploadNotesPress envLater lakeSurveyExpired).trace =
      lakeSurveyExpired.trace ++
        (unuploadedNotes lakeSurveyExpired.uploadedNotes).flatMap
          (fun n => postsOf n.images ++ postsOf n.imagess) ++
        Effect.batchCommit
          (uploadLoop envLater.fetch 0 lakeSurveyExpired.uploadedNotes).batch :: rest ∧
      rest.filter Effect.isBatchCommit = [] ∧ rest.filter Effect.isPost = []) ∧
    (uploadLoop envLater.fetch 0 lakeSurveyExpired.uploadedNotes).batch.length =
      (unuploadedNotes lakeSurveyExpired.uploadedNotes).length ∧
    (handleUploadNotesPress envLater lakeSurveyExpired).uploadedNoteDocs =
      applyBatch (uploadLoop envLater.fetch 0 lakeSurveyExpired.uploadedNotes).batch
        lakeSurveyExpired.uploadedNoteDocs ∧
    (handleUploadNotesPress envLater lakeSurveyExpired).remoteProject =
      lakeSurveyExpired.remoteProject.map (fun p => { p with isUploaded := true }) ∧
    (handleUploadNotesPress envLater lakeSurveyExpired).contextUploadStatus = true ∧
    (∃ saved, (handleUploadNotesPress envLater lakeSurveyExpired).storage =
        some (Stored.notes saved) ∧
      saved.length = lakeSurveyExpired.uploadedNotes.length ∧
      ∀ n ∈ saved, n.isUploaded = some true) ∧
    ∃ added, added.length = (unuploadedNotes lakeSurveyExpired.uploadedNotes).length ∧
      aggregateNotes "Lake Survey" (handleUploadNotesPress envLater lakeSurveyExpired).notesUploaded =
        aggregateNotes "Lake Survey" lakeSurveyExpired.notesUploaded ++ added :=
  expiry_check_uploads_all envLater lakeSurveyExpired
    { projectName := "Lake Survey", toDate := some 1000 } 1000 rfl rfl (by decide) rfl
    (by decide) (by decide) rfl rfl rfl rfl rfl
    (fun i note hi _ => by
      have hnotes : lakeSurveyExpired.uploadedNotes = [note1, note2] := rfl
      rw [hnotes] at hi
      have himg : ∀ (u : String) (j : Nat) (image : ImageEntry),
          [ImageEntry.ref { uri := u }][j]? = some image →
          ∃ url, uploadToCloudinary (envLater.fetch i false j) image = .ok url := by
        intro u j image hj
        cases j with
        | zero =>
          simp only [List.getElem?_cons_zero, Option.some.injEq] at hj
          subst hj
          exact ⟨scenarioUrl i 0, rfl⟩
        | succ j => simp at hj
      match i, hi with
      | 0, hi =>
        simp only [List.getElem?_cons_zero, Option.some.injEq] at hi
        subst hi
        exact ⟨himg _, fun j image hj => by simp [note1] at hj⟩
      | 1, hi =>
        simp only [List.getElem?_cons_succ, List.getElem?_cons_zero, Option.some.injEq] at hi
        subst hi
        exact ⟨himg _, fun j image hj => by simp [note2] at hj⟩
      | i + 2, hi => simp at hi)

/-! ## The claims on the expiry check, the uploader and the triggers -/

/-- C17: `checkAndUploadNotes` calls the upload cycle exactly when a project is
loaded, it has a `toDate`, the current instant is strictly later than it and
the project is not marked uploaded; its effect is the effect of the cycle in
that case and nothing in every other case. -/
theorem checkAndUploadNotes_invokes_iff (env : Env) (w : World) :
    ((checkAndUploadNotes env w).1 = true ↔
      ∃ project projectEndDate, w.project = some project ∧
        project.toDate = some projectEndDate ∧ projectEndDate < env.now ∧
        project.isUploaded = false) ∧
    (checkAndUploadNotes env w).2 =
      if (checkAndUploadNotes env w).1 then handleUploadNotesPress env w else w := by
  unfold checkAndUploadNotes
  cases hp : w.project with
  | none => simp
  | some project =>
    cases hd : project.toDate with
    | none => simp [hd]
    | some projectEndDate =>
      by_cases hlt : projectEndDate < env.now
      · cases hu : project.isUploaded <;> simp [hd, hlt, hu]
      · cases hu : project.isUploaded <;> simp [hd, hlt, hu]

/-- C19: `uploadToCloudinary` returns a URL exactly when the response is ok and
its JSON body has a non-empty `secure_url`, and that URL is the field; in every
other case it throws; its result is fixed by the outcome of the one POST it
issues for the image. -/
theorem uploadToCloudinary_ok_iff (fetch : FormData → FetchResult) (image : ImageEntry) :
    (∀ url, uploadToCloudinary fetch image = .ok url ↔
      ∃ r, fetch (formDataOf image) = .resolved r ∧ r.ok = true ∧
        r.json = some (some url) ∧ url ≠ "") ∧
    ((∃ r url, fetch (formDataOf image) = .resolved r ∧ r.ok = true ∧
        r.json = some (some url) ∧ url ≠ "") ∨
      ∃ message, uploadToCloudinary fetch image = .error message) ∧
    (∀ fetch' : FormData → FetchResult, fetch' (formDataOf image) = fetch (formDataOf image) →
      uploadToCloudinary fetch' image = uploadToCloudinary fetch image) ∧
    postsOf [image] = [Effect.post (formDataOf image)] := by
  refine ⟨?_, ?_, ?_, rfl⟩
  · intro url
    unfold uploadToCloudinary
    cases hf : fetch (formDataOf image) with
    | rejected message => simp
    | resolved r =>
      obtain ⟨ok, status, statusText, text, json⟩ := r
      cases ok with
      | false => simp
      | true =>
        rcases json with _ | _ | u
        · simp
        · simp
        · by_cases hu : u = ""
          · subst hu
            simp
            intro h
            exact h.symm
          · simp [hu]
            intro h
            subst h
            exact hu
  · unfold uploadToCloudinary
    cases hf : fetch (formDataOf image) with
    | rejected message => exact Or.inr ⟨message, rfl⟩
    | resolved r =>
      obtain ⟨ok, status, statusText, text, json⟩ := r
      cases ok with
      | false => exact Or.inr ⟨_, rfl⟩
      | true =>
        rcases json with _ | _ | u
        · exact Or.inr ⟨_, rfl⟩
        · exact Or.inr ⟨_, rfl⟩
        · by_cases hu : u = ""
          · subst hu
            exact Or.inr ⟨_, rfl⟩
          · exact Or.inl ⟨_, u, rfl, rfl, rfl, hu⟩
  · intro fetch' h
    unfold uploadToCloudinary
    rw [h]

/-- C20 (counterexample): a 500 response with body "internal error" and a 404
response with body "not found", both with an empty status text, make
`uploadToCloudinary` throw the same error, "Upload failed: ": the error carries
neither the status nor the body. -/
theorem upload_error_omits_status_and_body :
    response500.status ≠ response404.status ∧ response500.text ≠ response404.text ∧
    uploadToCloudinary (fun _ => FetchResult.resolved response500)
        (ImageEntry.ref { uri := "file:///v1.jpg" }) =
      uploadToCloudinary (fun _ => FetchResult.resolved response404)
        (ImageEntry.ref { uri := "file:///v1.jpg" }) ∧
    uploadToCloudinary (fun _ => FetchResult.resolved response500)
        (ImageEntry.ref { uri := "file:///v1.jpg" }) = .error "Upload failed: " :=
  ⟨by decide, by decide, rfl, rfl⟩

/-- C20 (amended): when the response is non-2xx, the error `uploadToCloudinary`
throws is the message "Upload failed: " followed by the status text of the
response; when the response is ok and its body has no (or an empty)
`secure_url`, it is the fixed message "Image upload failed, secure_url
missing.". -/
theorem upload_error_message (fetch : FormData → FetchResult) (image : ImageEntry)
    (r : Response) (h : fetch (formDataOf image) = .resolved r)
    (hfail : r.ok = false ∨ r.json = some none ∨ r.json = some (some "")) :
    uploadToCloudinary fetch image =
      .error (if r.ok then "Image upload failed, secure_url missing."
              else "Upload failed: " ++ r.statusText) := by
  unfold uploadToCloudinary
  rw [h]
  obtain ⟨ok, status, statusText, text, json⟩ := r
  cases ok with
  | false => simp
  | true =>
    rcases hfail with h1 | h1 | h1
    · simp at h1
    · simp only at h1
      subst h1
      simp
    · simp only at h1
      subst h1
      simp

/-- Witness of C20 (amended): the 500 response and the response without
`secure_url`. -/
theorem upload_error_message_witness :
    uploadToCloudinary (fun _ => FetchResult.resolved response500)
        (ImageEntry.ref { uri := "file:///v1.jpg" }) =
      .error (if response500.ok then "Image upload failed, secure_url missing."
              else "Upload failed: " ++ response500.statusText) :=
  upload_error_message (fun _ => FetchResult.resolved response500)
    (ImageEntry.ref { uri := "file:///v1.jpg" }) response500 rfl (Or.inl rfl)

/-- C16 (code defect): project with the notes A (uploaded) and B (not
uploaded); in the cycle in which the image upload of B fails and the commit and
the aggregate update succeed, B has no document in the remote ledger, yet the
Project is marked uploaded, remotely and locally. -/
theorem project_flag_set_before_B_commits :
    (uploadNoteImages envNote2Fails.fetch 1 noteB).1 = none ∧
    (handleUploadNotesPress envNote2Fails projectAB).uploadedNoteDocs = [("A", noteA)] ∧
    (handleUploadNotesPress envNote2Fails projectAB).remoteProject =
      some { projectName := "Pond Survey", isUploaded := true } ∧
    (handleUploadNotesPress envNote2Fails projectAB).contextUploadStatus = true := by
  decide

/-- C18 (counterexample): on "Lake Survey" with its end date in the past, a
press of the Upload button followed, while that call is suspended at its first
`await`, by the periodic expiry check: both calls get past the pending test,
two cycles are in flight and the image of note 1 is posted twice. -/
theorem second_trigger_starts_second_cycle :
    (startCheck envLater
      (startUpload envLater { world := lakeSurveyExpired, inFlight := 0 })).inFlight = 2 ∧
    (startCheck envLater
      (startUpload envLater { world := lakeSurveyExpired, inFlight := 0 })).world.trace =
      [Effect.post (formDataOf (ImageEntry.ref { uri := "file:///v1.jpg" })),
       Effect.post (formDataOf (ImageEntry.ref { uri := "file:///v1.jpg" }))] := by
  decide

/-- C18 (amended): the code keeps no in-flight flag.  With a signed-in user, a
press of the Upload button starts a cycle whenever the in-memory list holds a
pending note, whatever the number of cycles in flight, and starts none when no
note is pending; the expiry check of an expired project that is not marked
uploaded does the same. -/
theorem trigger_ignores_cycles_in_flight (env : Env) (s : Running) (project : Project)
    (projectEndDate : Int) (hUser : env.userEmail ≠ none)
    (hProject : s.world.project = some project)
    (hDate : project.toDate = some projectEndDate) (hPast : projectEndDate < env.now)
    (hNotUploaded : project.isUploaded = false) :
    (unuploadedNotes s.world.uploadedNotes ≠ [] →
      (startUpload env s).inFlight = s.inFlight + 1) ∧
    (unuploadedNotes s.world.uploadedNotes = [] → startUpload env s = s) ∧
    startCheck env s = startUpload env s := by
  refine ⟨?_, ?_, ?_⟩
  · unfold startUpload
    cases hu : env.userEmail with
    | none => exact absurd hu hUser
    | some email =>
      cases hp : unuploadedNotes s.world.uploadedNotes with
      | nil => simp
      | cons note rest => simp
  · unfold startUpload
    cases hu : env.userEmail with
    | none => exact absurd hu hUser
    | some email =>
      cases hp : unuploadedNotes s.world.uploadedNotes with
      | nil => simp
      | cons note rest => simp
  · unfold startCheck
    simp [hProject, hDate, hPast, hNotUploaded]

/-- Witness of C18 (amended): a trigger on the expired "Lake Survey" while one
cycle is in flight. -/
theorem trigger_ignores_cycles_in_flight_witness :
    (unuploadedNotes lakeSurveyExpired.uploadedNotes ≠ [] →
      (startUpload envLater { world := lakeSurveyExpired, inFlight := 1 }).inFlight = 1 + 1) ∧
    (unuploadedNotes lakeSurveyExpired.uploadedNotes = [] →
      startUpload envLater { world := lakeSurveyExpired, inFlight := 1 } =
        { world := lakeSurveyExpired, inFlight := 1 }) ∧
    startCheck envLater { world := lakeSurveyExpired, inFlight := 1 } =
      startUpload envLater { world := lakeSurveyExpired, inFlight := 1 } :=
  trigger_ignores_cycles_in_flight envLater { world := lakeSurveyExpired, inFlight := 1 }
    { projectName := "Lake Survey", toDate := some 1000 } 1000 (by decide) rfl rfl
    (by decide) rfl

/-! ## The claims on the aggregate write and on the loader -/

/-- C21: in a cycle that reaches the aggregate write (every call succeeding),
when the aggregate document of the project name exists the cycle issues one
`update` whose list is the existing `notes` (the empty list when the field is
missing) followed by the new notes, and the document then holds that list; when
the document does not exist the cycle issues one `set` with exactly the new
notes, and the document then holds them. -/
theorem aggregate_write_appends (env : Env) (w : World) (project : Project)
    (hUser : env.userEmail ≠ none) (hPending : (unuploadedNotes w.uploadedNotes).length ≠ 0)
    (hProject : w.project = some project) (hCommit : env.commitOk = true)
    (hGet : env.aggregateGetOk = true) (hWrite : env.aggregateWriteOk = true)
    (hFlag : env.projectUpdateOk = true) (hStore : env.storageSetOk = true) :
    (∀ existing, getDoc project.projectName w.notesUploaded = some existing →
      (∃ before after, (handleUploadNotesPress env w).trace =
          w.trace ++ before ++
            Effect.aggregateUpdate project.projectName
              (existing.getD [] ++ (uploadLoop env.fetch 0 w.uploadedNotes).unuploadedNotes)
            :: after ∧
          ∀ e ∈ before ++ after, e.isAggregateWrite = false) ∧
      getDoc project.projectName (handleUploadNotesPress env w).notesUploaded =
        some (some (existing.getD [] ++
          (uploadLoop env.fetch 0 w.uploadedNotes).unuploadedNotes))) ∧
    (getDoc project.projectName w.notesUploaded = none →
      (∃ before after, (handleUploadNotesPress env w).trace =
          w.trace ++ before ++
            Effect.aggregateSet project.projectName
              (uploadLoop env.fetch 0 w.uploadedNotes).unuploadedNotes
            :: after ∧
          ∀ e ∈ before ++ after, e.isAggregateWrite = false) ∧
      getDoc project.projectName (handleUploadNotesPress env w).notesUploaded =
        some (some (uploadLoop env.fetch 0 w.uploadedNotes).unuploadedNotes)) := by
  obtain ⟨_, _, _, hagg, htrace⟩ := handleUploadNotesPress_all_ok_fields env w project hUser
    hPending hProject hCommit hGet hWrite hFlag hStore
  have hposts : ∀ e ∈ (uploadLoop env.fetch 0 w.uploadedNotes).posts,
      e.isAggregateWrite = false := by
    intro e he
    have := uploadLoop_posts_isPost env.fetch w.uploadedNotes 0 e he
    cases e <;> simp_all [Effect.isPost, Effect.isAggregateWrite]
  have hothers : ∀ e ∈ ((uploadLoop env.fetch 0 w.uploadedNotes).posts ++
        [Effect.batchCommit (uploadLoop env.fetch 0 w.uploadedNotes).batch,
         Effect.aggregateGet project.projectName]) ++
        [Effect.projectUpdate, Effect.updateProjectUploadStatus,
         Effect.setUploadedNotes (uploadLoop env.fetch 0 w.uploadedNotes).finalNotes,
         Effect.storageSet (uploadLoop env.fetch 0 w.uploadedNotes).finalNotes],
      e.isAggregateWrite = false := by
    intro e he
    rcases List.mem_append.mp he with h | h
    · rcases List.mem_append.mp h with h | h
      · exact hposts e h
      · simp only [List.mem_cons, List.not_mem_nil, or_false] at h
        rcases h with rfl | rfl <;> rfl
    · simp only [List.mem_cons, List.not_mem_nil, or_false] at h
      rcases h with rfl | rfl | rfl | rfl <;> rfl
  constructor
  · intro existing hex
    rw [hex] at hagg htrace
    refine ⟨⟨_, _, ?_, hothers⟩, ?_⟩
    · rw [htrace]
      simp [aggregateWrite, List.append_assoc]
    · rw [hagg, getDoc_setDoc]
      rfl
  · intro hex
    rw [hex] at hagg htrace
    refine ⟨⟨_, _, ?_, hothers⟩, ?_⟩
    · rw [htrace]
      simp [aggregateWrite, List.append_assoc]
    · rw [hagg, getDoc_setDoc]
      rfl

/-- Witness of C21: the project with the notes A (uploaded, already in the
aggregate) and B, every call succeeding. -/
theorem aggregate_write_appends_witness :
    (∀ existing, getDoc "Pond Survey" projectAB.notesUploaded = some existing →
      (∃ before after, (handleUploadNotesPress envAllOk projectAB).trace =
          projectAB.trace ++ before ++
            Effect.aggregateUpdate "Pond Survey"
              (existing.getD [] ++
                (uploadLoop envAllOk.fetch 0 projectAB.uploadedNotes).unuploadedNotes)
            :: after ∧
          ∀ e ∈ before ++ after, e.isAggregateWrite = false) ∧
      getDoc "Pond Survey" (handleUploadNotesPress envAllOk projectAB).notesUploaded =
        some (some (existing.getD [] ++
          (uploadLoop envAllOk.fetch 0 projectAB.uploadedNotes).unuploadedNotes))) ∧
    (getDoc "Pond Survey" projectAB.notesUploaded = none →
      (∃ before after, (handleUploadNotesPress envAllOk projectAB).trace =
          projectAB.trace ++ before ++
            Effect.aggregateSet "Pond Survey"
              (uploadLoop envAllOk.fetch 0 projectAB.uploadedNotes).unuploadedNotes
            :: after ∧
          ∀ e ∈ before ++ after, e.isAggregateWrite = false) ∧
      getDoc "Pond Survey" (handleUploadNotesPress envAllOk projectAB).notesUploaded =
        some (some (uploadLoop envAllOk.fetch 0 projectAB.uploadedNotes).unuploadedNotes)) :=
  aggregate_write_appends envAllOk projectAB { projectName := "Pond Survey" }
    (by decide) (by decide) rfl rfl rfl rfl rfl rfl

/-- C22 (counterexample): the screen holds note 1 and the stored record does
not parse; after the load the screen still holds note 1, not the empty list. -/
theorem corrupt_store_keeps_previous_list :
    corruptStore.storage = some Stored.corrupt ∧
    (loadProjectDetails envAllOk corruptStore).uploadedNotes = [note1] ∧
    (loadProjectDetails envAllOk corruptStore).uploadedNotes ≠ [] := by
  decide

/-- C22 (amended): when the stored record does not parse, or the read of the
device store rejects, the load does not throw and the note list held after it
is the list held before it; the device store is left as it was and
`setUploadedNotes` is not called. -/
theorem unreadable_store_keeps_list (env : Env) (w : World)
    (hUnreadable : w.storage = some Stored.corrupt ∨ env.storageGetOk = false) :
    (loadProjectDetails env w).uploadedNotes = w.uploadedNotes ∧
    (loadProjectDetails env w).storage = w.storage ∧
    (loadProjectDetails env w).trace = w.trace := by
  unfold loadProjectDetails
  cases env.userEmail with
  | none => simp
  | some email =>
    cases env.projectGetOk with
    | false => simp
    | true =>
      rcases hUnreadable with h | h
      · cases env.storageGetOk <;> cases w.remoteProject <;> simp [h]
      · cases w.remoteProject <;> simp [h]

/-- Witness of C22 (amended): the screen that holds note 1 over a stored record
that does not parse. -/
theorem unreadable_store_keeps_list_witness :
    (loadProjectDetails envAllOk corruptStore).uploadedNotes = corruptStore.uploadedNotes ∧
    (loadProjectDetails envAllOk corruptStore).storage = corruptStore.storage ∧
    (loadProjectDetails envAllOk corruptStore).trace = corruptStore.trace :=
  unreadable_store_keeps_list envAllOk corruptStore (Or.inl rfl)

/-- C23: with a signed-in user and the remote and store reads succeeding, the
load yields the empty list when nothing is stored; when a note list is stored
it yields the stored notes in stored order and number, each with `Serial`, both
image lists and the other fields unchanged and with the flag `isUploaded`
unchanged when present and `false` when missing; the device store is left as it
was and no store write is issued. -/
theorem load_yields_stored_notes (env : Env) (w : World)
    (hUser : env.userEmail ≠ none) (hProjectGet : env.projectGetOk = true)
    (hStorageGet : env.storageGetOk = true) :
    (w.storage = none → (loadProjectDetails env w).uploadedNotes = []) ∧
    (∀ l : List Note, w.storage = some (Stored.notes l) →
      (loadProjectDetails env w).uploadedNotes.length = l.length ∧
      ∀ (i : Nat) (n : Note), l[i]? = some n →
        ∃ n' : Note, (loadProjectDetails env w).uploadedNotes[i]? = some n' ∧
          n'.Serial = n.Serial ∧ n'.images = n.images ∧ n'.imagess = n.imagess ∧
          n'.fields = n.fields ∧ n'.isUploaded = some (n.isUploaded.getD false)) ∧
    (loadProjectDetails env w).storage = w.storage ∧
    ∃ issued, (loadProjectDetails env w).trace = w.trace ++ issued ∧
      ∀ e ∈ issued, e.isStorageSet = false := by
  have hmem : (w.storage = none → (loadProjectDetails env w).uploadedNotes = []) ∧
      (∀ l, w.storage = some (Stored.notes l) →
        (loadProjectDetails env w).uploadedNotes = l.map normalizeNote) := by
    unfold loadProjectDetails
    cases hu : env.userEmail with
    | none => exact absurd hu hUser
    | some email =>
      constructor
      · intro h
        cases w.remoteProject <;> simp [hProjectGet, hStorageGet, h]
      · intro l h
        cases w.remoteProject <;> simp [hProjectGet, hStorageGet, h]
  have htrace : ∃ issued, (loadProjectDetails env w).trace = w.trace ++ issued ∧
      ∀ e ∈ issued, e.isStorageSet = false := by
    unfold loadProjectDetails
    cases hu : env.userEmail with
    | none => exact absurd hu hUser
    | some email =>
      cases hs : w.storage with
      | none =>
        cases w.remoteProject <;>
          exact ⟨[Effect.setUploadedNotes []], by simp [hProjectGet, hStorageGet, hs],
            by simp [Effect.isStorageSet]⟩
      | some stored =>
        cases stored with
        | corrupt =>
          cases w.remoteProject <;>
            exact ⟨[], by simp [hProjectGet, hStorageGet, hs], by simp⟩
        | notes l =>
          cases w.remoteProject <;>
            exact ⟨[Effect.setUploadedNotes (l.map normalizeNote)],
              by simp [hProjectGet, hStorageGet, hs], by simp [Effect.isStorageSet]⟩
  refine ⟨hmem.1, ?_, (loadProjectDetails_outcome env w).1, htrace⟩
  intro l hl
  rw [hmem.2 l hl]
  refine ⟨by simp, ?_⟩
  intro i n hi
  refine ⟨normalizeNote n, by simp [hi], rfl, rfl, rfl, rfl, ?_⟩
  unfold normalizeNote Note.uploaded
  rcases hflag : n.isUploaded with _ | _ | _ <;> simp

/-- Witness of C23: the load of "Lake Survey". -/
theorem load_yields_stored_notes_witness :
    (lakeSurvey.storage = none → (loadProjectDetails envAllOk lakeSurvey).uploadedNotes = []) ∧
    (∀ l : List Note, lakeSurvey.storage = some (Stored.notes l) →
      (loadProjectDetails envAllOk lakeSurvey).uploadedNotes.length = l.length ∧
      ∀ (i : Nat) (n : Note), l[i]? = some n →
        ∃ n' : Note, (loadProjectDetails envAllOk lakeSurvey).uploadedNotes[i]? = some n' ∧
          n'.Serial = n.Serial ∧ n'.images = n.images ∧ n'.imagess = n.imagess ∧
          n'.fields = n.fields ∧ n'.isUploaded = some (n.isUploaded.getD false)) ∧
    (loadProjectDetails envAllOk lakeSurvey).storage = lakeSurvey.storage ∧
    ∃ issued, (loadProjectDetails envAllOk lakeSurvey).trace = lakeSurvey.trace ++ issued ∧
      ∀ e ∈ issued, e.isStorageSet = false :=
  load_yields_stored_notes envAllOk lakeSurvey (by decide) rfl rfl

/-- C25 (counterexample): no Project document in the remote ledger and note 1
in the device store; the load goes on after the failed lookup, calls
`setUploadedNotes` and the screen holds note 1. -/
theorem load_continues_without_project :
    projectMissing.remoteProject = none ∧
    (loadProjectDetails envAllOk projectMissing).uploadedNotes = [note1] ∧
    (loadProjectDetails envAllOk projectMissing).trace = [Effect.setUploadedNotes [note1]] := by
  decide

/-- C25 (amended): when the Project document is absent from the remote ledger,
`loadProjectDetails` leaves the `project` state as it was and goes on with the
remaining steps: with the store read succeeding and a note list stored, the
stored notes are normalised and put into the state. -/
theorem missing_project_is_skipped (env : Env) (w : World) (l : List Note)
    (hUser : env.userEmail ≠ none) (hProjectGet : env.projectGetOk = true)
    (hStorageGet : env.storageGetOk = true) (hMissing : w.remoteProject = none)
    (hStored : w.storage = some (Stored.notes l)) :
    (loadProjectDetails env w).project = w.project ∧
    (loadProjectDetails env w).uploadedNotes = l.map normalizeNote ∧
    (loadProjectDetails env w).trace =
      w.trace ++ [Effect.setUploadedNotes (l.map normalizeNote)] := by
  unfold loadProjectDetails
  cases hu : env.userEmail with
  | none => exact absurd hu hUser
  | some email => simp [hProjectGet, hStorageGet, hMissing, hStored]

/-- Witness of C25 (amended): the load with no Project document and note 1
stored. -/
theorem missing_project_is_skipped_witness :
    (loadProjectDetails envAllOk projectMissing).project = projectMissing.project ∧
    (loadProjectDetails envAllOk projectMissing).uploadedNotes = [note1].map normalizeNote ∧
    (loadProjectDetails envAllOk projectMissing).trace =
      projectMissing.trace ++ [Effect.setUploadedNotes ([note1].map normalizeNote)] :=
  missing_project_is_skipped envAllOk projectMissing [note1] (by decide) rfl rfl rfl rfl

/-- C26: the form data `uploadToCloudinary` builds for an image object carries
its `uri`, its `type` when present (non-empty) and "image/jpeg" when missing,
its `name` when present (non-empty) and "upload.jpg" when missing, and the
upload preset "profile2" for every image; it is the form data of the one POST
issued for the image. -/
theorem form_data_of_image (r : ImageRef) :
    (formDataOf (ImageEntry.ref r)).uri = some r.uri ∧
    (∀ t, r.type = some t → t ≠ "" → (formDataOf (ImageEntry.ref r)).type = t) ∧
    (r.type = none ∨ r.type = some "" → (formDataOf (ImageEntry.ref r)).type = "image/jpeg") ∧
    (∀ n, r.name = some n → n ≠ "" → (formDataOf (ImageEntry.ref r)).name = n) ∧
    (r.name = none ∨ r.name = some "" → (formDataOf (ImageEntry.ref r)).name = "upload.jpg") ∧
    (∀ image : ImageEntry, (formDataOf image).upload_preset = "profile2") ∧
    postsOf [ImageEntry.ref r] = [Effect.post (formDataOf (ImageEntry.ref r))] := by
  refine ⟨rfl, ?_, ?_, ?_, ?_, ?_, rfl⟩
  · intro t ht hne
    simp [formDataOf, orDefault, ht, hne]
  · rintro (h | h) <;> simp [formDataOf, orDefault, h]
  · intro n hn hne
    simp [formDataOf, orDefault, hn, hne]
  · rintro (h | h) <;> simp [formDataOf, orDefault, h]
  · intro image
    cases image <;> rfl

/-! ## The claims on the saved list, the picture screen and the remaining screens -/

/-- C24 (code defect): project with the notes A (uploaded) and B (pending); in
the cycle in which the image upload of B fails the committed batch is empty,
note A is saved unchanged, and note B, whose `Serial` is not in the committed
set, is replaced in the saved list by a copy marked uploaded. -/
theorem uncommitted_note_replaced_in_saved_list :
    (uploadLoop envNote2Fails.fetch 0 projectAB.uploadedNotes).batch = [] ∧
    (storedNotes (handleUploadNotesPress envNote2Fails projectAB))[0]? = some noteA ∧
    (storedNotes (handleUploadNotesPress envNote2Fails projectAB))[1]? =
      some { noteB with isUploaded := some true } ∧
    noteB ≠ { noteB with isUploaded := some true } := by
  decide

theorem findIndex_some (p : Note → Bool) :
    ∀ (l : List Note) (k : Nat), findIndex p l = some k →
      ∃ n, l[k]? = some n ∧ p n = true ∧ ∀ j m, j < k → l[j]? = some m → p m = false := by
  intro l
  induction l with
  | nil => intro k h; simp [findIndex] at h
  | cons head rest ih =>
    intro k h
    unfold findIndex at h
    cases hp : p head with
    | true =>
      simp only [hp, if_true, Option.some.injEq] at h
      subst h
      exact ⟨head, by simp, hp, fun j m hj => absurd hj (Nat.not_lt_zero j)⟩
    | false =>
      simp only [hp, Bool.false_eq_true, if_false, Option.map_eq_some'] at h
      obtain ⟨k', hk', rfl⟩ := h
      obtain ⟨n, h1, h2, h3⟩ := ih k' hk'
      refine ⟨n, by simpa using h1, h2, ?_⟩
      intro j m hj hm
      cases j with
      | zero =>
        simp only [List.getElem?_cons_zero, Option.some.injEq] at hm
        subst hm
        exact hp
      | succ j' =>
        simp only [List.getElem?_cons_succ] at hm
        exact h3 j' m (by omega) hm

theorem findIndex_none (p : Note → Bool) :
    ∀ l : List Note, findIndex p l = none → ∀ n ∈ l, p n = false := by
  intro l
  induction l with
  | nil => intro _ n hn; simp at hn
  | cons head rest ih =>
    intro h n hn
    unfold findIndex at h
    cases hp : p head with
    | true => simp [hp] at h
    | false =>
      simp only [hp, Bool.false_eq_true, if_false, Option.map_eq_none'] at h
      rcases List.mem_cons.mp hn with rfl | hn
      · exact hp
      · exact ih h n hn

theorem assignImages_length (images : List ImageEntry) :
    ∀ (l : List Note) (k : Nat), (assignImages images k l).length = l.length := by
  intro l
  induction l with
  | nil => intro k; cases k <;> rfl
  | cons head rest ih =>
    intro k
    cases k with
    | zero => rfl
    | succ k' => simp [assignImages, ih k']

theorem assignImages_getElem (images : List ImageEntry) :
    ∀ (l : List Note) (k : Nat) (n : Note), l[k]? = some n →
      (assignImages images k l)[k]? = some { n with images := images } ∧
      ∀ j, j ≠ k → (assignImages images k l)[j]? = l[j]? := by
  intro l
  induction l with
  | nil => intro k n h; simp at h
  | cons head rest ih =>
    intro k n h
    cases k with
    | zero =>
      simp only [List.getElem?_cons_zero, Option.some.injEq] at h
      subst h
      refine ⟨by simp [assignImages], ?_⟩
      intro j hj
      cases j with
      | zero => exact absurd rfl hj
      | succ j' => simp [assignImages]
    | succ k' =>
      simp only [List.getElem?_cons_succ] at h
      obtain ⟨h1, h2⟩ := ih k' n h
      refine ⟨by simpa [assignImages] using h1, ?_⟩
      intro j hj
      cases j with
      | zero => simp [assignImages]
      | succ j' =>
        simp only [assignImages, List.getElem?_cons_succ]
        exact h2 j' (by omega)

/-- C27: with the store calls succeeding, `handleDeleteImage(u)` on a screen
whose displayed images are the stored images of the first stored note with the
screen's `Serial` writes back a record of the same length in which that note
has as `images` its old images without the entries whose `uri` is `u` (in
their order) and is otherwise unchanged, and every other note is unchanged;
when no stored note has that `Serial`, or nothing is stored, the device store
is not written. -/
theorem delete_image_rewrites_one_note (env : Env) (u : Option String) (s : VialPicture)
    (hGet : env.storageGetOk = true) (hSet : env.storageSetOk = true) :
    (∀ (l : List Note) (k : Nat) (n : Note), s.storage = some (Stored.notes l) →
      findIndex (fun m => m.Serial == s.serial) l = some k → l[k]? = some n →
      s.images = n.images →
      ∃ written : List Note,
        (handleDeleteImage env u s).storage = some (Stored.notes written) ∧
        (handleDeleteImage env u s).trace = s.trace ++ [Effect.storageSet written] ∧
        written.length = l.length ∧ n.Serial = s.serial ∧
        written[k]? =
          some { n with images := n.images.filter (fun image => image.uri != u) } ∧
        (n.images.filter (fun image => image.uri != u)).Sublist n.images ∧
        ∀ j, j ≠ k → written[j]? = l[j]?) ∧
    (∀ l : List Note, s.storage = some (Stored.notes l) →
      (∀ n ∈ l, n.Serial ≠ s.serial) →
      (handleDeleteImage env u s).storage = s.storage ∧
      (handleDeleteImage env u s).trace = s.trace) ∧
    (s.storage = none →
      (handleDeleteImage env u s).storage = s.storage ∧
      (handleDeleteImage env u s).trace = s.trace) := by
  refine ⟨?_, ?_, ?_⟩
  · intro l k n hl hk hn himg
    obtain ⟨n0, hn0, hp, _⟩ := findIndex_some _ l k hk
    rw [hn] at hn0
    simp only [Option.some.injEq] at hn0
    subst hn0
    obtain ⟨h1, h2⟩ := assignImages_getElem
      (n.images.filter (fun image => image.uri != u)) l k n hn
    refine ⟨assignImages (n.images.filter (fun image => image.uri != u)) k l, ?_, ?_,
      assignImages_length _ l k, by simpa using hp, h1, List.filter_sublist _, h2⟩
    · unfold handleDeleteImage
      simp [hGet, hSet, hl, hk, himg]
    · unfold handleDeleteImage
      simp [hGet, hSet, hl, hk, himg]
  · intro l hl hno
    have hnone : findIndex (fun m => m.Serial == s.serial) l = none := by
      cases hf : findIndex (fun m => m.Serial == s.serial) l with
      | none => rfl
      | some k =>
        obtain ⟨n, hn, hp, _⟩ := findIndex_some _ l k hf
        exact absurd (by simpa using hp) (hno n (List.mem_iff_getElem?.mpr ⟨k, hn⟩))
    unfold handleDeleteImage
    simp [hGet, hl, hnone]
  · intro hs
    unfold handleDeleteImage
    simp [hGet, hs]

/-- Witness of C27: the first of the two images of note "1" is deleted. -/
theorem delete_image_rewrites_one_note_witness :
    ∃ written : List Note,
      (handleDeleteImage envAllOk (some "file:///v1.jpg") pictureScreen).storage =
        some (Stored.notes written) ∧
      (handleDeleteImage envAllOk (some "file:///v1.jpg") pictureScreen).trace =
        pictureScreen.trace ++ [Effect.storageSet written] ∧
      written.length = [noteTwoImages, note2].length ∧
      noteTwoImages.Serial = pictureScreen.serial ∧
      written[0]? =
        some { noteTwoImages with
          images := noteTwoImages.images.filter
            (fun image => image.uri != some "file:///v1.jpg") } ∧
      (noteTwoImages.images.filter
        (fun image => image.uri != some "file:///v1.jpg")).Sublist noteTwoImages.images ∧
      ∀ j, j ≠ 0 → written[j]? = [noteTwoImages, note2][j]? :=
  (delete_image_rewrites_one_note envAllOk (some "file:///v1.jpg") pictureScreen rfl rfl).1
    [noteTwoImages, note2] 0 noteTwoImages rfl (by decide) rfl rfl

theorem getLast_filter_spec {α : Type} (p : α → Bool) :
    ∀ l : List α,
      ((l.filter p).getLast? = none ∧ ∀ x ∈ l, p x = false) ∨
      ∃ c before after, (l.filter p).getLast? = some c ∧ l = before ++ c :: after ∧
        p c = true ∧ ∀ x ∈ after, p x = false := by
  intro l
  induction l with
  | nil => exact Or.inl ⟨rfl, by simp⟩
  | cons head rest ih =>
    rcases ih with ⟨hnone, hall⟩ | ⟨c, before, after, hlast, hsplit, hc, hafter⟩
    · have hnil : rest.filter p = [] := List.getLast?_eq_none_iff.mp hnone
      cases hp : p head with
      | true =>
        refine Or.inr ⟨head, [], rest, ?_, rfl, hp, hall⟩
        simp [List.filter_cons, hp, hnil]
      | false =>
        refine Or.inl ⟨?_, ?_⟩
        · simp [List.filter_cons, hp, hnil]
        · intro x hx
          rcases List.mem_cons.mp hx with rfl | hx
          · exact hp
          · exact hall x hx
    · refine Or.inr ⟨c, head :: before, after, ?_, by simp [hsplit], hc, hafter⟩
      cases hp : p head with
      | true =>
        rw [List.filter_cons, if_pos hp]
        cases hf : rest.filter p with
        | nil => rw [hf] at hlast; simp at hlast
        | cons a t =>
          rw [hf] at hlast
          rw [List.getLast?_cons_cons]
          exact hlast
      | false =>
        rw [List.filter_cons]
        simpa [hp] using hlast

/-- C28: `checkIfExpired(d)` depends on the calendar days of `d` and of the
current instant only; it is true exactly when the day of `d` is the current day
or a later one and false exactly when it is an earlier one.  For a loaded
project that is not marked uploaded, at an instant later than `toDate` on the
day of `toDate`, the buttons Upload and Add Site are shown and
`checkAndUploadNotes` calls the upload cycle. -/
theorem checkIfExpired_compares_days (dayOf : Int → Int) (env : Env) (w : World)
    (project : Project) (d : Int) (hProject : w.project = some project)
    (hDate : project.toDate = some d) (hNotUploaded : project.isUploaded = false)
    (hLater : d < env.now) (hSameDay : dayOf env.now = dayOf d) :
    (∀ now given : Int, checkIfExpired dayOf now (some given) = true ↔
      dayOf now ≤ dayOf given) ∧
    (∀ now given : Int, checkIfExpired dayOf now (some given) = false ↔
      dayOf given < dayOf now) ∧
    projectButtons dayOf env.now project = ["Upload", "Add Site"] ∧
    (checkAndUploadNotes env w).1 = true := by
  have h1 : ∀ now given : Int, checkIfExpired dayOf now (some given) = true ↔
      dayOf now ≤ dayOf given := by
    intro now given
    unfold checkIfExpired
    by_cases h : dayOf given < dayOf now
    · simp [h]
    · simp [h]
      omega
  have h2 : ∀ now given : Int, checkIfExpired dayOf now (some given) = false ↔
      dayOf given < dayOf now := by
    intro now given
    unfold checkIfExpired
    by_cases h : dayOf given < dayOf now
    · simp [h]
    · simp [h]
  refine ⟨h1, h2, ?_, ?_⟩
  · unfold projectButtons
    rw [hDate, (h1 env.now d).mpr (le_of_eq hSameDay)]
    rfl
  · unfold checkAndUploadNotes
    simp [hProject, hDate, hLater, hNotUploaded]

/-- Witness of C28: "Lake Survey" with end instant 1000, at the instant 2000 of
the same UTC day. -/
theorem checkIfExpired_compares_days_witness :
    (∀ now given : Int, checkIfExpired utcDay now (some given) = true ↔
      utcDay now ≤ utcDay given) ∧
    (∀ now given : Int, checkIfExpired utcDay now (some given) = false ↔
      utcDay given < utcDay now) ∧
    projectButtons utcDay envLater.now { projectName := "Lake Survey", toDate := some 1000 } =
      ["Upload", "Add Site"] ∧
    (checkAndUploadNotes envLater lakeSurveyExpired).1 = true :=
  checkIfExpired_compares_days utcDay envLater lakeSurveyExpired
    { projectName := "Lake Survey", toDate := some 1000 } 1000 rfl rfl rfl
    (by decide) (by decide)

/-- C29: for a project that is not marked uploaded, `handleNotePress` navigates
to the collect screen with a `noteSerial2` that is the empty string when the
`Serial` has no decimal digit and otherwise the one-character string of the
last decimal digit of the `Serial`; the serials "2" and "12" both give "2". -/
theorem noteSerial2_is_last_digit (project : Project) (note : Note)
    (hNotUploaded : project.isUploaded = false) :
    (∃ noteSerial2,
      handleNotePress project note =
        Navigation.collectScreen note project.country noteSerial2 project.projectName ∧
      ((noteSerial2 = "" ∧ ∀ x ∈ note.Serial.toList, x.isDigit = false) ∨
       ∃ c before after, noteSerial2 = String.singleton c ∧
         note.Serial.toList = before ++ c :: after ∧ c.isDigit = true ∧
         ∀ x ∈ after, x.isDigit = false)) ∧
    sliceLast (digitsOnly "2") = "2" ∧ sliceLast (digitsOnly "12") = "2" := by
  refine ⟨⟨sliceLast (digitsOnly note.Serial), ?_, ?_⟩, by decide, by decide⟩
  · unfold handleNotePress
    simp [hNotUploaded]
  · unfold sliceLast digitsOnly
    rcases getLast_filter_spec Char.isDigit note.Serial.toList with
      ⟨hnone, hall⟩ | ⟨c, before, after, hlast, hsplit, hc, hafter⟩
    · left
      simp only [String.toList] at hnone ⊢
      rw [hnone]
      exact ⟨rfl, hall⟩
    · right
      simp only [String.toList] at hlast ⊢
      rw [hlast]
      exact ⟨c, before, after, rfl, hsplit, hc, hafter⟩

/-- Witness of C29: the note with `Serial` "12" of a project that is not
uploaded. -/
theorem noteSerial2_is_last_digit_witness :
    handleNotePress { projectName := "Lake Survey" } { Serial := "12" } =
      Navigation.collectScreen { Serial := "12" } "" "2" "Lake Survey" ∧
    (∃ noteSerial2,
      handleNotePress { projectName := "Lake Survey" } { Serial := "12" } =
        Navigation.collectScreen { Serial := "12" } "" noteSerial2 "Lake Survey" ∧
      ((noteSerial2 = "" ∧ ∀ x ∈ "12".toList, x.isDigit = false) ∨
       ∃ c before after, noteSerial2 = String.singleton c ∧
         "12".toList = before ++ c :: after ∧ c.isDigit = true ∧
         ∀ x ∈ after, x.isDigit = false)) ∧
    sliceLast (digitsOnly "2") = "2" ∧ sliceLast (digitsOnly "12") = "2" :=
  ⟨by decide, noteSerial2_is_last_digit { projectName := "Lake Survey" } { Serial := "12" } rfl⟩

/-- C30: for every list of projects of the home screen, `uploadedCount +
pendingCount` is the number of projects, `pendingCount` is not negative and is
the number of projects that are not uploaded, `totalCount` is the number of
projects plus the number of allocated projects, and it lies between the number
of projects and twice that number. -/
theorem home_counters (allocatedProjects : List HomeProject) :
    uploadedCount allocatedProjects + pendingCount allocatedProjects =
      allocatedProjects.length ∧
    0 ≤ pendingCount allocatedProjects ∧
    pendingCount allocatedProjects =
      (allocatedProjects.filter (fun project => !project.isUploaded)).length ∧
    totalCount allocatedProjects =
      allocatedProjects.length +
        (allocatedProjects.filter (fun project => project.isAllocated)).length ∧
    (allocatedProjects.length : Int) ≤ totalCount allocatedProjects ∧
    totalCount allocatedProjects ≤ 2 * allocatedProjects.length := by
  have hsplit : (allocatedProjects.filter (fun project => project.isUploaded)).length +
      (allocatedProjects.filter (fun project => !project.isUploaded)).length =
      allocatedProjects.length := by
    induction allocatedProjects with
    | nil => rfl
    | cons head rest ih =>
      cases h : head.isUploaded <;> simp [List.filter_cons, h] <;> omega
  have hle : (allocatedProjects.filter (fun project => project.isAllocated)).length ≤
      allocatedProjects.length := List.length_filter_le _ _
  unfold uploadedCount pendingCount totalCount totalCreated totalAllocated uploadedCount
  refine ⟨by omega, by omega, by omega, rfl, by omega, by omega⟩

end Max
